import Mathlib

/-
  Verification of the block-placement self-play agent.

  Shallow embedding of the python sources: ai.py, game.py, ai_trainer.py,
  ui.py, state_io.py, pieces.py.  Grids are lists of rows of natural
  numbers (0 = empty, 1 = filled), machine floats are modelled as exact
  rationals, and the square root used by one heuristic feature is an
  explicit function parameter.  Fallible code returns Option or Except.
-/

namespace BlockBlast

/-- Grid of cells, row major, as in the python sources. -/
abbrev Grid := List (List Nat)

/-- Reads cell (row y, column x), with the out-of-range default 0. -/
def getCell (g : Grid) (y x : Nat) : Nat := (g.getD y []).getD x 0

/-- Writes cell (row y, column x); out-of-range writes are dropped. -/
def setCell (g : Grid) (y x : Nat) (v : Nat) : Grid :=
  g.set y ((g.getD y []).set x v)

/-- Piece from ai.py: offset cells plus the hand slot index it occupies.
    The game-side piece type of pieces.py carries a name instead of the
    slot; only the cells field is read by the engine functions embedded
    here, so a single piece type serves both sides. -/
structure Piece where
  cells : List (Int × Int)
  slot : Int
deriving DecidableEq, Repr

/-- Game snapshot consumed by the agent, from ai.py.  The size field is
    an arbitrary integer exactly as it arrives from the snapshot file. -/
structure GameState where
  grid : Grid
  hand : List (Option Piece)
  combo : Int
  combo_active : Bool
  score : Int
  size : Int
deriving DecidableEq, Repr

/-- Simulated post-move state, from ai.py. -/
structure SimulatedState where
  grid : Grid
  cleared_lines : Nat
  score_gain : Int
  piece : Piece
  gx : Int
  gy : Int
deriving DecidableEq, Repr

/-- Legality check parameterized by the board side length.  The function
    can_place of ai.py instantiates size with the grid length, the method
    Game.can_place of game.py instantiates it with the stored board size;
    both bodies are this code. -/
def can_place_on (grid : Grid) (size : Nat) (piece : Piece) (gx gy : Int) : Bool :=
  piece.cells.all fun d =>
    let x := gx + d.1
    let y := gy + d.2
    decide (0 ≤ x) && decide (0 ≤ y) && decide (x < (size : Int)) &&
      decide (y < (size : Int)) && (getCell grid y.toNat x.toNat != 1)

/-- Embeds can_place of ai.py, where size = len(grid). -/
def can_place (grid : Grid) (piece : Piece) (gx gy : Int) : Bool :=
  can_place_on grid grid.length piece gx gy

/-- Embeds place_piece of ai.py: sets every translated piece cell to 1.
    The python function mutates its argument; the embedding returns the
    updated grid value. -/
def place_piece (grid : Grid) (piece : Piece) (gx gy : Int) : Grid :=
  piece.cells.foldl (fun g d => setCell g (gy + d.2).toNat (gx + d.1).toNat 1) grid

/-- Row r is full: every cell in columns 0..size-1 equals 1. -/
def rowFull (grid : Grid) (size r : Nat) : Bool :=
  (List.range size).all fun c => getCell grid r c == 1

/-- Column c is full: every cell in rows 0..size-1 equals 1. -/
def colFull (grid : Grid) (size c : Nat) : Bool :=
  (List.range size).all fun r => getCell grid r c == 1

/-- Zeroes the cells of row r in columns 0..size-1, one cell at a time,
    as the clearing loops of the sources do. -/
def zeroRow (grid : Grid) (size r : Nat) : Grid :=
  (List.range size).foldl (fun g c => setCell g r c 0) grid

/-- Zeroes the cells of column c in rows 0..size-1. -/
def zeroCol (grid : Grid) (size c : Nat) : Grid :=
  (List.range size).foldl (fun g r => setCell g r c 0) grid

/-- Full rows of the input grid, ascending. -/
def fullRows (grid : Grid) (size : Nat) : List Nat :=
  (List.range size).filter (rowFull grid size)

/-- Full columns of the input grid, ascending. -/
def fullCols (grid : Grid) (size : Nat) : List Nat :=
  (List.range size).filter (colFull grid size)

/-- Line clearing parameterized by the board side length.  The function
    clear_lines of ai.py instantiates size with the grid length, the
    method Game.clear_lines of game.py instantiates it with the stored
    board size; both bodies are this code: full rows and full columns are
    found in the input grid, then zeroed, and the count of cleared rows
    plus cleared columns is returned. -/
def clearLinesOn (grid : Grid) (size : Nat) : Grid × Nat :=
  let full_rows := fullRows grid size
  let full_cols := fullCols grid size
  let g1 := full_rows.foldl (fun g r => zeroRow g size r) grid
  let g2 := full_cols.foldl (fun g c => zeroCol g size c) g1
  (g2, full_rows.length + full_cols.length)

/-- Embeds clear_lines of ai.py, where size = len(grid). -/
def clear_lines (grid : Grid) : Grid × Nat :=
  clearLinesOn grid grid.length

/-- Embeds calculate_score_gain of ai.py. -/
def calculate_score_gain (cleared combo : Int) : Int :=
  if cleared ≤ 0 then 0
  else
    let base := 10 * cleared
    let bonus := base * (combo + 1)
    if 2 < cleared then bonus * (cleared - 1) else bonus

/-- Embeds simulate_move of ai.py.  The python code copies the rows of
    the state grid into new_grid and mutates only the copy; in the value
    semantics of the embedding the copy is the same list value. -/
def simulate_move (state : GameState) (piece : Piece) (gx gy : Int) :
    Option SimulatedState :=
  if can_place state.grid piece gx gy then
    let new_grid := state.grid.map fun row => row
    let new_grid := place_piece new_grid piece gx gy
    let base_gain : Int := piece.cells.length
    let cl := clear_lines new_grid
    let clear_gain := calculate_score_gain cl.2 state.combo
    let total_gain := base_gain + clear_gain
    some ⟨cl.1, cl.2, total_gain, piece, gx, gy⟩
  else none

/-- Authoritative engine state, from game.py.  The random generator used
    only by the hand-dealing routine is not part of the embedding: the
    routine deal_hand_full replaces the hand through the generator and
    touches no other field, so the embedding of place leaves the hand
    empty at the point where the python code refreshes it. -/
structure Game where
  size : Nat
  grid : Grid
  score : Int
  hand : List (Option Piece)
  combo : Int
  combo_streak : Bool
  hand_clears : Nat
  prev_hand_had_clear : Bool
  last_action_score : Int
  last_lines_cleared : Nat
deriving DecidableEq, Repr

/-- Every cell of the board region is 0, as checked inside the scoring
    method of game.py. -/
def allClearB (grid : Grid) (size : Nat) : Bool :=
  (List.range size).all fun r => (List.range size).all fun c => getCell grid r c == 0

/-- Embeds the scoring method for clears of game.py (leading underscore
    dropped from the python name): awards the clear bonus scaled by the
    pre-move combo, plus 300 when the whole board is empty afterwards,
    then raises the combo. -/
def Game.score_clears (g : Game) (cleared : Nat) : Game :=
  if cleared = 0 then g
  else
    let base_points : Int := 10 * (cleared : Int)
    let bonus := base_points * (g.combo + 1)
    let bonus := if 2 < (cleared : Int) then bonus * ((cleared : Int) - 1) else bonus
    let bonus := if allClearB g.grid g.size then bonus + 300 else bonus
    { g with score := g.score + bonus, combo := g.combo + (cleared : Int),
             combo_streak := true }

/-- Embeds Game.place of game.py: validates the slot, the held piece and
    the placement, then writes the piece, scores the placed cells, clears
    lines, scores the clears, empties the slot and handles the
    hand-boundary combo bookkeeping.  The cell-writing loop of the python
    method is the same loop as place_piece of ai.py. -/
def Game.place (g : Game) (slot_index gx gy : Int) : Bool × Game :=
  if ¬ (0 ≤ slot_index ∧ slot_index < 3) then (false, g)
  else
    match g.hand.getD slot_index.toNat none with
    | none => (false, g)
    | some piece =>
      if ¬ (can_place_on g.grid g.size piece gx gy = true) then (false, g)
      else
        let score_before := g.score
        let g1 : Game := { g with grid := place_piece g.grid piece gx gy,
                                  score := g.score + (piece.cells.length : Int) }
        let cl := clearLinesOn g1.grid g1.size
        let g2 : Game := { g1 with grid := cl.1, last_lines_cleared := cl.2 }
        let g3 := g2.score_clears cl.2
        let g4 : Game := { g3 with last_action_score := g3.score - score_before,
                                   hand_clears := g3.hand_clears + cl.2,
                                   hand := g3.hand.set slot_index.toNat none }
        let g5 : Game :=
          if g4.hand.all Option.isNone then
            let g6 : Game :=
              if g4.hand_clears = 0 then
                { g4 with combo := 0, prev_hand_had_clear := false }
              else
                let g7 : Game :=
                  if g4.combo = 0 ∧ (g4.prev_hand_had_clear ∨ 2 ≤ g4.hand_clears) then
                    { g4 with combo := 1 }
                  else g4
                let g8 : Game :=
                  if 0 < g7.combo then
                    { g7 with combo := g7.combo + (g7.hand_clears : Int) }
                  else g7
                { g8 with prev_hand_had_clear := true }
            { g6 with hand_clears := 0 }
          else g4
        (true, g5)


/-- Weight vector with the 14 feature coefficients, from ai.py.  Machine
    floats are modelled as exact rationals; a python dict that passed the
    load-time key check always carries all 14 keys, which the structure
    fields represent. -/
structure Weights where
  holes : ℚ
  max_height : ℚ
  avg_height : ℚ
  filled : ℚ
  edge_penalty : ℚ
  cluster_score : ℚ
  row_almost_full : ℚ
  col_almost_full : ℚ
  empty_rows : ℚ
  combo_preservation : ℚ
  piece_fit : ℚ
  diversity : ℚ
  cleared_lines : ℚ
  immediate_gain : ℚ
deriving DecidableEq, Repr

/-- Orthogonal neighbor offsets used by the cluster and fit features. -/
def neighborOffsets : List (Int × Int) := [(0, 1), (1, 0), (0, -1), (-1, 0)]

/-- Embeds calc_holes of ai.py: empty cells below a seen block, scanned
    top to bottom per column. -/
def calc_holes (grid : Grid) : ℚ :=
  let size := grid.length
  (((List.range size).foldl (fun (holes : Nat) x =>
      ((List.range size).foldl (fun (acc : Nat × Bool) y =>
          if getCell grid y x = 1 then (acc.1, true)
          else if acc.2 ∧ getCell grid y x = 0 then (acc.1 + 1, acc.2)
          else acc) (holes, false)).1) 0 : Nat) : ℚ)

/-- Height of column x: size minus the row of the topmost filled cell,
    0 when the column is empty, as the per-column loops of ai.py do. -/
def columnTopHeight (grid : Grid) (size x : Nat) : Nat :=
  match (List.range size).find? (fun y => getCell grid y x == 1) with
  | some y => size - y
  | none => 0

/-- Embeds calc_max_height of ai.py. -/
def calc_max_height (grid : Grid) : ℚ :=
  let size := grid.length
  (((List.range size).foldl (fun m x => max m (columnTopHeight grid size x)) 0 : Nat) : ℚ)

/-- Per-column heights list shared by the average and diversity features. -/
def columnHeights (grid : Grid) (size : Nat) : List Nat :=
  (List.range size).map fun x => columnTopHeight grid size x

/-- Embeds calc_avg_height of ai.py. -/
def calc_avg_height (grid : Grid) : ℚ :=
  let size := grid.length
  let heights := columnHeights grid size
  if heights.isEmpty then 0 else ((heights.sum : ℚ) / (heights.length : ℚ))

/-- Embeds calc_filled of ai.py: total of all row sums. -/
def calc_filled (grid : Grid) : ℚ :=
  (((grid.map fun row => row.sum).sum : Nat) : ℚ)

/-- Embeds calc_edge_penalty of ai.py: placed cells on the outer ring. -/
def calc_edge_penalty (grid : Grid) (piece : Piece) (gx gy : Int) : ℚ :=
  let size := grid.length
  ((piece.cells.foldl (fun (n : Nat) d =>
      let x := gx + d.1
      let y := gy + d.2
      if x = 0 ∨ x = (size : Int) - 1 ∨ y = 0 ∨ y = (size : Int) - 1 then n + 1
      else n) 0 : Nat) : ℚ)

/-- Embeds calc_cluster_score of ai.py: filled 4-neighbor count summed
    over every filled cell. -/
def calc_cluster_score (grid : Grid) : ℚ :=
  let size := grid.length
  (((List.range size).foldl (fun (cluster : Nat) y =>
      (List.range size).foldl (fun (cluster : Nat) x =>
        if getCell grid y x = 1 then
          cluster + neighborOffsets.foldl (fun (nb : Nat) d =>
            let nx := (x : Int) + d.1
            let ny := (y : Int) + d.2
            if 0 ≤ nx ∧ nx < (size : Int) ∧ 0 ≤ ny ∧ ny < (size : Int) ∧
                getCell grid ny.toNat nx.toNat = 1 then nb + 1 else nb) 0
        else cluster) cluster) 0 : Nat) : ℚ)

/-- Embeds calc_row_almost_full of ai.py: rows whose full-row sum lies
    in the band from size minus 2 up to below size. -/
def calc_row_almost_full (grid : Grid) : ℚ :=
  let size := grid.length
  (((List.range size).foldl (fun (n : Nat) y =>
      let filled := (grid.getD y []).sum
      if (size : Int) - 2 ≤ (filled : Int) ∧ (filled : Int) < (size : Int) then n + 1
      else n) 0 : Nat) : ℚ)

/-- Embeds calc_col_almost_full of ai.py. -/
def calc_col_almost_full (grid : Grid) : ℚ :=
  let size := grid.length
  (((List.range size).foldl (fun (n : Nat) x =>
      let filled := ((List.range size).map fun y => getCell grid y x).sum
      if (size : Int) - 2 ≤ (filled : Int) ∧ (filled : Int) < (size : Int) then n + 1
      else n) 0 : Nat) : ℚ)

/-- Embeds calc_empty_rows of ai.py: rows whose full-row sum is 0. -/
def calc_empty_rows (grid : Grid) : ℚ :=
  let size := grid.length
  (((List.range size).foldl (fun (n : Nat) y =>
      if (grid.getD y []).sum = 0 then n + 1 else n) 0 : Nat) : ℚ)

/-- Embeds calc_combo_preservation of ai.py; the combo argument is
    accepted and unused exactly as in the source. -/
def calc_combo_preservation (combo : Int) (combo_active : Bool) (cleared : Nat) : ℚ :=
  if combo_active = true ∧ 0 < cleared then 30 * (cleared : ℚ)
  else if ¬ combo_active = true ∧ 0 < cleared then 10 * (cleared : ℚ)
  else 0

/-- Embeds calc_piece_fit of ai.py: per placed cell, neighbors that are
    out of bounds or filled. -/
def calc_piece_fit (grid : Grid) (piece : Piece) (gx gy : Int) : ℚ :=
  let size := grid.length
  ((piece.cells.foldl (fun (fs : Nat) d =>
      let x := gx + d.1
      let y := gy + d.2
      fs + neighborOffsets.foldl (fun (nb : Nat) nd =>
        let nx := x + nd.1
        let ny := y + nd.2
        if nx < 0 ∨ ny < 0 ∨ (size : Int) ≤ nx ∨ (size : Int) ≤ ny then nb + 1
        else if getCell grid ny.toNat nx.toNat = 1 then nb + 1
        else nb) 0) 0 : Nat) : ℚ)

/-- Embeds calc_diversity of ai.py.  The float square root is the
    explicit sqrtFn parameter applied to the population variance. -/
def calc_diversity (sqrtFn : ℚ → ℚ) (grid : Grid) : ℚ :=
  let size := grid.length
  let heights := columnHeights grid size
  if heights.isEmpty then 0
  else
    let avg : ℚ := (heights.sum : ℚ) / (heights.length : ℚ)
    let variance :=
      (heights.map fun h => ((h : ℚ) - avg) ^ 2).sum / (heights.length : ℚ);
    -(sqrtFn variance)

/-- Embeds evaluate_move of ai.py: the weighted sum of the 14 features. -/
def evaluate_move (sqrtFn : ℚ → ℚ) (sim : SimulatedState) (state : GameState)
    (weights : Weights) : ℚ :=
  let b1 := calc_holes sim.grid
  let b2 := calc_max_height sim.grid
  let b3 := calc_avg_height sim.grid
  let b4 := calc_filled sim.grid
  let b5 := calc_edge_penalty sim.grid sim.piece sim.gx sim.gy
  let b6 := calc_cluster_score sim.grid
  let b7 := calc_row_almost_full sim.grid
  let b8 := calc_col_almost_full sim.grid
  let b9 := calc_empty_rows sim.grid
  let b10 := calc_combo_preservation state.combo state.combo_active sim.cleared_lines
  let b11 := calc_piece_fit sim.grid sim.piece sim.gx sim.gy
  let b12 := calc_diversity sqrtFn sim.grid
  let b13 := (sim.cleared_lines : ℚ)
  let b14 := (sim.score_gain : ℚ)
  weights.holes * b1 + weights.max_height * b2 + weights.avg_height * b3 +
    weights.filled * b4 + weights.edge_penalty * b5 + weights.cluster_score * b6 +
    weights.row_almost_full * b7 + weights.col_almost_full * b8 +
    weights.empty_rows * b9 + weights.combo_preservation * b10 +
    weights.piece_fit * b11 + weights.diversity * b12 +
    weights.cleared_lines * b13 + weights.immediate_gain * b14

/-- Embeds find_all_legal_moves of ai.py: hand order outer, then y, then
    x, appending every placement accepted by can_place. -/
def find_all_legal_moves (state : GameState) : List (Piece × Int × Int) :=
  state.hand.foldl
    (fun moves op =>
      match op with
      | none => moves
      | some piece =>
        (List.range state.size.toNat).foldl
          (fun (moves : List (Piece × Int × Int)) (gy : Nat) =>
            (List.range state.size.toNat).foldl
              (fun (moves : List (Piece × Int × Int)) (gx : Nat) =>
                if can_place state.grid piece (gx : Int) (gy : Int) then
                  moves ++ [(piece, (gx : Int), (gy : Int))]
                else moves)
              moves)
          moves)
    []

/-- Embeds choose_best_move of ai.py: running maximum with strict
    comparison over the legal moves, starting from the minus 10 to the
    18 sentinel. -/
def choose_best_move (sqrtFn : ℚ → ℚ) (state : GameState) (weights : Weights) :
    Option (Int × Int × Int) :=
  let legal_moves := find_all_legal_moves state
  if legal_moves.isEmpty then none
  else
    (legal_moves.foldl
      (fun (acc : Option (Int × Int × Int) × ℚ) m =>
        match simulate_move state m.1 m.2.1 m.2.2 with
        | none => acc
        | some sim =>
          let value := evaluate_move sqrtFn sim state weights
          if acc.2 < value then (some (m.1.slot, m.2.1, m.2.2), value) else acc)
      (none, -(10 ^ 18 : ℚ))).1

/-- Modelled from the spec: the candidate enumeration order the
    move-search section names, hand slot ascending, then y ascending,
    then x ascending, over the full grid; compared against the order the
    source produces. -/
def specCandidates (state : GameState) : List (Piece × Int × Int) :=
  (state.hand.filterMap id).flatMap fun piece =>
    (List.range state.size.toNat).flatMap fun (gy : Nat) =>
      (List.range state.size.toNat).map fun (gx : Nat) =>
        (piece, (gx : Int), (gy : Int))

/-- The (slot, x, y) triple the search reports for a candidate. -/
def moveOf (m : Piece × Int × Int) : Int × Int × Int := (m.1.slot, m.2.1, m.2.2)

/-- Value the search loop assigns to a candidate: the evaluation of its
    simulation, with the loop sentinel for a failed simulation. -/
def moveValue (sqrtFn : ℚ → ℚ) (state : GameState) (weights : Weights)
    (m : Piece × Int × Int) : ℚ :=
  match simulate_move state m.1 m.2.1 m.2.2 with
  | none => -(10 ^ 18 : ℚ)
  | some sim => evaluate_move sqrtFn sim state weights

/-- One step of the running-maximum loop over precomputed values. -/
def bestStep {A : Type _} (acc : Option A × ℚ) (p : A × ℚ) : Option A × ℚ :=
  if acc.2 < p.2 then (some p.1, p.2) else acc

/-- Running-maximum fold over precomputed values, from the sentinel. -/
def bestFold {A : Type _} (l : List (A × ℚ)) : Option A × ℚ :=
  l.foldl bestStep (none, -(10 ^ 18 : ℚ))

/-- Square-root model that is constantly zero; agrees with the float
    square root on the zero variance of the boards it is used on. -/
def sqrtZero : ℚ → ℚ := fun _ => 0

/-- All-zero weight vector. -/
def weightsZero : Weights := ⟨0, 0, 0, 0, 0, 0, 0, 0, 0, 0, 0, 0, 0, 0⟩

/-- Weight vector whose edge-penalty coefficient is minus 10 to the 19,
    driving every candidate value below the loop sentinel. -/
def weightsEdgeHuge : Weights :=
  ⟨0, 0, 0, 0, -(10 ^ 19 : ℚ), 0, 0, 0, 0, 0, 0, 0, 0, 0⟩


/-- Candidate moves paired with their loop values, in enumeration order. -/
def movePairs (sqrtFn : ℚ → ℚ) (state : GameState) (weights : Weights) :
    List ((Int × Int × Int) × ℚ) :=
  (find_all_legal_moves state).map fun m =>
    (moveOf m, moveValue sqrtFn state weights m)


/-- Json value stored under a weight key: a number or anything the float
    conversion rejects. -/
inductive JVal where
  | num (q : ℚ)
  | other
deriving DecidableEq, Repr

/-- Content of the weights file as the loader sees it: missing file,
    unparseable file, or a parsed object. -/
inductive WFile where
  | absent
  | invalid
  | json (data : List (String × JVal))
deriving DecidableEq, Repr

/-- The built-in fallback weight vector of ai.py; float literals are
    modelled by the rationals they denote. -/
def FALLBACK_WEIGHTS : List (String × ℚ) :=
  [("holes", -8), ("max_height", -3), ("avg_height", -1), ("filled", -(3/10)),
   ("edge_penalty", -2), ("cluster_score", 4), ("row_almost_full", 15),
   ("col_almost_full", 15), ("empty_rows", 5), ("combo_preservation", 50),
   ("piece_fit", 8), ("diversity", 3), ("cleared_lines", 100),
   ("immediate_gain", 1)]

/-- Embeds load_weights of ai.py: a missing or unparseable file falls
    back; a parsed object must contain every fallback key and every one
    of its values must convert to float, else read falls back; on success
    every entry is kept, converted, in file order. -/
def load_weights (file : WFile) (fallback : List (String × ℚ)) :
    List (String × ℚ) :=
  match file with
  | .json data =>
    if fallback.all (fun kv => data.any fun kv2 => kv2.1 == kv.1) then
      if data.all (fun kv => match kv.2 with | .num _ => true | .other => false) then
        data.map fun kv => (kv.1, match kv.2 with | .num q => q | .other => 0)
      else fallback
    else fallback
  | _ => fallback

/-- Embeds save_json of ai_trainer.py composed with a parse of the
    written file: serializing a finite float mapping and parsing it back
    is exact, a property of the json library the model takes as given. -/
def save_json_weights (w : List (String × ℚ)) : WFile :=
  .json (w.map fun kv => (kv.1, JVal.num kv.2))

/-- Hand entry of the snapshot file, loosely typed like the json data:
    a missing empty flag defaults to true and a missing or falsy piece
    field carries no cells. -/
structure HandEntry where
  slot : Int
  empty : Option Bool
  piece : Option (List (Int × Int))
deriving DecidableEq, Repr

/-- Snapshot payload fields that load_state of ai.py reads. -/
structure SnapData where
  game_over : Bool
  any_move_available : Option Bool
  grid : Grid
  size : Int
  hand : List HandEntry
  combo : Int
  combo_active : Bool
  score : Int
deriving DecidableEq, Repr

/-- Snapshot file as the loader sees it. -/
inductive SnapFile where
  | absent
  | unparseable
  | json (d : SnapData)
deriving DecidableEq, Repr

/-- List assignment with python index semantics: nonnegative indices
    below the length and negative indices no lower than minus the length
    are valid, anything else raises IndexError. -/
def pySet {α : Type _} (l : List α) (i : Int) (v : α) : Except Unit (List α) :=
  if 0 ≤ i then
    if i.toNat < l.length then .ok (l.set i.toNat v) else .error ()
  else
    if (-i).toNat ≤ l.length then .ok (l.set (l.length - (-i).toNat) v)
    else .error ()

/-- Total counterpart of pySet used to state what a run without index
    errors produces. -/
def pySetD {α : Type _} (l : List α) (i : Int) (v : α) : List α :=
  if 0 ≤ i then l.set i.toNat v else l.set (l.length - (-i).toNat) v

/-- Builds the three-slot hand as load_state of ai.py does, entry by
    entry over the payload list; an out-of-range slot index raises just
    as the python list assignment does. -/
def buildHand (entries : List HandEntry) :
    Except Unit (List (Option Piece)) :=
  entries.foldlM
    (fun h e =>
      if e.empty.getD true then pySet h e.slot none
      else
        match e.piece with
        | none => pure h
        | some cells => pySet h e.slot (some ⟨cells, e.slot⟩))
    [none, none, none]

/-- Total counterpart of buildHand for runs without index errors. -/
def buildHandD (entries : List HandEntry) : List (Option Piece) :=
  entries.foldl
    (fun h e =>
      if e.empty.getD true then pySetD h e.slot none
      else
        match e.piece with
        | none => h
        | some cells => pySetD h e.slot (some ⟨cells, e.slot⟩))
    [none, none, none]

/-- Embeds load_state of ai.py: a missing or unparseable file, a truthy
    game_over flag or a falsy any_move_available flag yield no state;
    otherwise the GameState is assembled from the payload fields. -/
def load_state (file : SnapFile) : Except Unit (Option GameState) :=
  match file with
  | .absent => .ok none
  | .unparseable => .ok none
  | .json d =>
    if d.game_over || !(d.any_move_available.getD true) then .ok none
    else
      match buildHand d.hand with
      | .error e => .error e
      | .ok hand =>
        .ok (some ⟨d.grid, hand, d.combo, d.combo_active, d.score, d.size⟩)

/-- Snapshot payload whose only hand entry names slot 3: not terminal,
    yet the loader raises on the out-of-range list assignment. -/
def badSnap : SnapData :=
  ⟨false, none, [], 8, [⟨3, none, none⟩], 0, false, 0⟩

/-- Well-formed snapshot payload used by the C9 witness. -/
def goodSnap : SnapData :=
  ⟨false, some true, [[0]], 1, [⟨0, some false, some [(0, 0)]⟩], 2, true, 5⟩



/-- Concrete single-cell piece for counterexamples. -/
def pieceOne : Piece := ⟨[(0, 0)], 0⟩

/-- One by one engine state used for the C1 counterexample. -/
def gameOne : Game := ⟨1, [[0]], 0, [some pieceOne, none, none], 0, false, 0, false, 0, 0⟩

/-- One by one snapshot matching gameOne. -/
def stateOne : GameState := ⟨[[0]], [some pieceOne, none, none], 0, false, 0, 1⟩

/-- Two by two empty-board engine state for the C1 witness. -/
def gameTwo : Game :=
  ⟨2, [[0, 0], [0, 0]], 0, [some pieceOne, none, none], 0, false, 0, false, 0, 0⟩

/-- Two by two snapshot matching gameTwo. -/
def stateTwo : GameState :=
  ⟨[[0, 0], [0, 0]], [some pieceOne, none, none], 0, false, 0, 2⟩

/-- Embeds Game.any_move_available of game.py: with an empty hand the
    answer is true, otherwise some held piece fits somewhere. -/
def Game.any_move_available (g : Game) : Bool :=
  let pieces := g.hand.filterMap id
  if pieces.isEmpty then true
  else
    pieces.any fun p =>
      (List.range g.size).any fun y =>
        (List.range g.size).any fun x =>
          can_place_on g.grid g.size p (x : Int) (y : Int)

/-- Integer-like json field of the action file: convertible or not. -/
inductive JInt where
  | ival (v : Int)
  | nonint
deriving DecidableEq, Repr

/-- Action payload fields, each possibly missing from the object. -/
structure ActData where
  move_id : Option JInt
  slot : Option JInt
  gx : Option JInt
  gy : Option JInt
deriving DecidableEq, Repr

/-- Action file as the ui consumer reads it: missing or unreadable gives
    no object, a falsy parse such as the empty object is read but treated
    as no action, a dict carries the fields. -/
inductive ActFile where
  | absent
  | unreadable
  | falsy
  | json (a : ActData)
deriving DecidableEq, Repr

/-- Consumer-side state of the ui loop of ui.py relevant to the action
    protocol: the drag flag, the game-over flag, the last processed move
    identifier and the engine state. -/
structure ConsState where
  dragging : Bool
  game_over : Bool
  last_move_id : Int
  game : Game
deriving DecidableEq, Repr

/-- Observable outcome of one call of apply_ai_action_if_any: the new
    state, whether the action file was deleted, and the identifier of the
    move applied through Game.place, when one was. -/
structure StepOut where
  state : ConsState
  deleted : Bool
  applied : Option Int
deriving DecidableEq, Repr

/-- Conversion applied to slot, gx and gy: present and int-like or the
    int() call raises. -/
def toIntField (f : Option JInt) : Option Int :=
  match f with
  | some (.ival v) => some v
  | _ => none

/-- Embeds apply_ai_action_if_any of ui.py.  The board-size constant
    imported from the absent config module is the parameter B.  Purely
    visual fields (active drag object, ghost cell) are not modelled; the
    game-over flag update and the state write that follow a successful
    placement are, the latter as the returned state itself. -/
def apply_ai_action (B : Nat) (s : ConsState) (file : ActFile) : StepOut :=
  if s.dragging then ⟨s, false, none⟩
  else if s.game_over then
    ⟨s, match file with | .absent => false | _ => true, none⟩
  else
    match file with
    | .absent => ⟨s, false, none⟩
    | .unreadable => ⟨s, false, none⟩
    | .falsy => ⟨s, false, none⟩
    | .json a =>
      let move_id : JInt :=
        match a.move_id with
        | none => .ival (s.last_move_id + 1)
        | some j => j
      match move_id with
      | .nonint => ⟨s, true, none⟩
      | .ival mid =>
        if mid ≤ s.last_move_id then ⟨s, true, none⟩
        else
          match toIntField a.slot, toIntField a.gx, toIntField a.gy with
          | some slot, some gx, some gy =>
            if ¬ (0 ≤ slot ∧ slot < 3 ∧ 0 ≤ gx ∧ gx < (B : Int) ∧
                0 ≤ gy ∧ gy < (B : Int)) then
              ⟨{ s with last_move_id := mid }, true, none⟩
            else
              match s.game.hand.getD slot.toNat none with
              | none => ⟨{ s with last_move_id := mid }, true, none⟩
              | some piece =>
                if ¬ (can_place_on s.game.grid s.game.size piece gx gy = true) then
                  ⟨{ s with last_move_id := mid }, true, none⟩
                else
                  let pr := s.game.place slot gx gy
                  if pr.1 then
                    let go2 : Bool :=
                      if pr.2.any_move_available then s.game_over else true
                    let s2 : ConsState :=
                      { s with game := pr.2, last_move_id := mid, game_over := go2 }
                    ⟨s2, true, some mid⟩
                  else
                    ⟨{ s with game := pr.2, last_move_id := mid }, true, none⟩
          | _, _, _ => ⟨s, true, none⟩

/-- Consumer run over a sequence of action-file reads, collecting the
    identifiers of the applied moves in order. -/
def runConsumer (B : Nat) (s : ConsState) (files : List ActFile) :
    ConsState × List Int :=
  files.foldl
    (fun acc f =>
      let out := apply_ai_action B acc.1 f
      (out.state, acc.2 ++ out.applied.toList))
    (s, [])


/-- Sample well-formed action payload with identifier 5. -/
def demoAct : ActData :=
  ⟨some (.ival 5), some (.ival 0), some (.ival 0), some (.ival 0)⟩

/-- Sample action-file sequence: the same identifier published twice. -/
def demoFiles : List ActFile := [.json demoAct, .json demoAct]

/-- Initial consumer state used by the C8 counterexample. -/
def consStart : ConsState := ⟨false, false, -1, gameOne⟩



/-- Weight mapping as the trainer handles it. -/
abbrev WeightV := List (String × ℚ)

/-- Population member of ai_trainer.py: weights and fitness. -/
structure Member where
  w : WeightV
  f : ℚ
deriving DecidableEq, Repr

/-- Default member used for list lookups that python would crash on. -/
def defaultMember : Member := ⟨[], 0⟩

/-- Per-game statistics record from stats.json. -/
structure GameStat where
  moves : ℚ
  score : ℚ
  max_combo : ℚ
deriving DecidableEq, Repr

/-- Keyed per-game statistics mapping. -/
abbrev Stats := List (String × GameStat)

/-- Best-record file content: absent or unreadable, an object without
    the fitness key, or an object carrying fitness and weights. -/
inductive BestFile where
  | absent
  | noF (w : WeightV)
  | withF (f : ℚ) (w : WeightV)
deriving DecidableEq, Repr

/-- Fitness baseline the trainer reads from the best-record file. -/
def bestFitness (b : BestFile) : ℚ :=
  match b with
  | .absent => 0
  | .noF _ => 0
  | .withF f _ => f

/-- Stream of draws in the unit interval modelling the random module;
    each primitive consumes from the front. -/
abbrev RngS := List ℚ

/-- Trainer constants of ai_trainer.py. -/
def POPULATION_SIZE : Nat := 10

/-- Elite count kept verbatim each generation. -/
def TOP_KEEP : Nat := 2

/-- Per-key mutation probability. -/
def MUTATE_RATE : ℚ := 1 / 5

/-- Mutation delta scale relative to the bound range. -/
def MUTATE_POWER : ℚ := 1 / 4

/-- Weight bounds of ai_trainer.py, used for fresh randomization and
    mutation clamping. -/
def BOUNDS : List (String × ℚ × ℚ) :=
  [("holes", -15, -1), ("max_height", -8, -(1/2)), ("avg_height", -5, -(1/10)),
   ("filled", -2, 0), ("edge_penalty", -5, 0), ("cluster_score", 0, 10),
   ("row_almost_full", 5, 30), ("col_almost_full", 5, 30), ("empty_rows", 0, 15),
   ("combo_preservation", 20, 100), ("piece_fit", 2, 20), ("diversity", 0, 10),
   ("cleared_lines", 50, 200), ("immediate_gain", 0, 5)]

/-- Embeds calc_fitness of ai_trainer.py: mean moves plus two fifths of
    the mean max combo plus a thousandth of the mean score. -/
def calc_fitness (stats : Stats) : ℚ :=
  if stats.isEmpty then 0
  else
    let games := stats.map fun kv => kv.2
    let moves := (games.map fun g => g.moves).sum / (games.length : ℚ)
    let score := (games.map fun g => g.score).sum / (games.length : ℚ)
    let combo := (games.map fun g => g.max_combo).sum / (games.length : ℚ)
    moves + combo * (2 / 5) + score * (1 / 1000)

/-- Embeds random_weights of ai_trainer.py: one uniform draw per bound
    entry, in order. -/
def random_weights (rng : RngS) : WeightV × RngS :=
  BOUNDS.foldl
    (fun (acc : WeightV × RngS) b =>
      let u := acc.2.headD 0
      (acc.1 ++ [(b.1, b.2.1 + (b.2.2 - b.2.1) * u)], acc.2.tail))
    ([], rng)

/-- Embeds mutate of ai_trainer.py: per key a coin decides whether to
    perturb by a uniform delta scaled to the bound range and clamp; a
    key absent from the bounds table is modelled with the zero range the
    python code would crash on. -/
def mutate (w : WeightV) (rng : RngS) : WeightV × RngS :=
  w.foldl
    (fun (acc : WeightV × RngS) kv =>
      let u := acc.2.headD 0
      let rng1 := acc.2.tail
      if u < MUTATE_RATE then
        let bd := ((BOUNDS.lookup kv.1).getD (0, 0))
        let delta := (bd.2 - bd.1) * MUTATE_POWER
        let d := rng1.headD 0
        let nv := kv.2 + (-delta + (delta - -delta) * d)
        let nv := max bd.1 (min bd.2 nv)
        (acc.1 ++ [(kv.1, nv)], rng1.tail)
      else (acc.1 ++ [(kv.1, kv.2)], rng1))
    ([], rng)

/-- Embeds crossover of ai_trainer.py: per key of the first parent a
    coin picks the first or the second parent value; a key the second
    parent lacks is modelled as zero where python would crash. -/
def crossover (w1 w2 : WeightV) (rng : RngS) : WeightV × RngS :=
  w1.foldl
    (fun (acc : WeightV × RngS) kv =>
      let u := acc.2.headD 0
      let v := if u < 1 / 2 then kv.2 else (w2.lookup kv.1).getD 0
      (acc.1 ++ [(kv.1, v)], acc.2.tail))
    ([], rng)

/-- Models random.choice: one draw scaled by the list length picks the
    index. -/
def choiceR {α : Type _} (l : List α) (d : α) (rng : RngS) : α × RngS :=
  let u := rng.headD 0
  (l.getD (u * (l.length : ℚ)).floor.toNat d, rng.tail)

/-- Stable descending sort by fitness, as list.sort with reverse=True. -/
def sortDesc (pop : List Member) : List Member :=
  pop.mergeSort fun a b => decide (b.f ≤ a.f)

/-- Writes the just-computed fitness into the population slot at the
    cursor, as the python item assignment does. -/
def assignFitness (pop : List Member) (idx : Nat) (fit : ℚ) : List Member :=
  pop.set idx { pop.getD idx defaultMember with f := fit }

/-- Embeds the refill loop of train: children from crossover of two
    parents sampled from the top half, then mutation, fitness zero,
    until the population is full again. -/
def refill (sorted : List Member) (np : List Member) (rng : RngS) :
    List Member × RngS :=
  if h : POPULATION_SIZE ≤ np.length then (np, rng)
  else
    let c1 := choiceR (sorted.take (POPULATION_SIZE / 2)) defaultMember rng
    let c2 := choiceR (sorted.take (POPULATION_SIZE / 2)) defaultMember c1.2
    let cw := crossover c1.1.w c2.1.w c2.2
    let mw := mutate cw.1 cw.2
    refill sorted (np ++ [⟨mw.1, 0⟩]) mw.2
termination_by POPULATION_SIZE - np.length
decreasing_by
  simp [List.length_append]
  omega

/-- Embeds the cursor advance while-loop of train: skip members already
    holding a positive fitness. -/
def advanceCursor (pop : List Member) (idx : Nat) : Nat :=
  if h : idx < pop.length then
    if 0 < (pop.getD idx defaultMember).f then advanceCursor pop (idx + 1)
    else idx
  else idx
termination_by pop.length - idx
decreasing_by
  omega

/-- Fresh-population setup of train: current weights from the weights
    file when present, else a random draw; then ten random members with
    the first member weights overwritten by the current weights. -/
def freshPop (weightsFile : Option WeightV) (rng : RngS) :
    List Member × Int × RngS :=
  let cw : WeightV × RngS :=
    match weightsFile with
    | some cwv => (cwv, rng)
    | none => random_weights rng
  let popInit := (List.range POPULATION_SIZE).foldl
    (fun (acc : List Member × RngS) _ =>
      let rw := random_weights acc.2
      (acc.1 ++ [⟨rw.1, 0⟩], rw.2))
    ([], cw.2)
  (popInit.1.set 0 { popInit.1.getD 0 defaultMember with w := cw.1 }, 0,
    popInit.2)

/-- The four files the trainer writes on one invocation: the best record
    when beaten, then population, cursor and active weights. -/
structure TrainResult where
  best_write : Option Member
  population : List Member
  cursor : Nat
  weights : WeightV
deriving DecidableEq, Repr

/-- Embeds train of ai_trainer.py over the file contents it reads and
    the files it writes; the random module is the rng stream.  A missing
    or empty stats file does nothing.  A negative persisted cursor is
    modelled by its clamp to zero where python would index from the
    end. -/
def train (stats : Stats) (popFile : Option (List Member))
    (idxFile : Option Int) (weightsFile : Option WeightV)
    (bestFile : BestFile) (rng : RngS) : Option TrainResult :=
  if stats.isEmpty then none
  else
    let ini : List Member × Int × RngS :=
      match popFile with
      | some p => if p.isEmpty then freshPop weightsFile rng
                  else (p, idxFile.getD 0, rng)
      | none => freshPop weightsFile rng
    let population := ini.1
    let current_idx := ini.2.1
    let rng := ini.2.2
    let fitness := calc_fitness stats
    let population := assignFitness population current_idx.toNat fitness
    let all_evaluated := population.all fun p => decide (0 < p.f)
    if all_evaluated then
      let sorted := sortDesc population
      let head := sorted.getD 0 defaultMember
      let best_write :=
        if bestFitness bestFile < head.f then some ⟨head.w, head.f⟩ else none
      let new_pop0 := (sorted.take TOP_KEEP).map fun p => p
      let rf := refill sorted new_pop0 rng
      some ⟨best_write, rf.1, 0, (rf.1.getD 0 defaultMember).w⟩
    else
      let ci1 := advanceCursor population (current_idx.toNat + 1)
      let ci2 := if population.length ≤ ci1 then 0 else ci1
      some ⟨none, population, ci2, (population.getD ci2 defaultMember).w⟩



/-- Store of board rows for the aliasing-aware re-embedding used by the
    frame result: python rows are mutable list objects, so each row
    lives behind an index into this store; writes mutate the store and
    reads do not.  The agent-side search functions are re-embedded over
    it so that the copy discipline of simulate_move, fresh row slices
    gathered into a fresh list, is visible rather than assumed. -/
abbrev RowStore := List (List Nat)

/-- Reference to a row in the store. -/
abbrev RRef := Nat

/-- Reads the row behind a reference. -/
def readRow (σ : RowStore) (r : RRef) : List Nat := σ.getD r []

/-- Overwrites the row behind a reference. -/
def writeRow (σ : RowStore) (r : RRef) (row : List Nat) : RowStore :=
  σ.set r row

/-- Snapshot state whose grid is a list of row references. -/
structure GameStateR where
  grid : List RRef
  hand : List (Option Piece)
  combo : Int
  combo_active : Bool
  score : Int
  size : Int
deriving DecidableEq, Repr

/-- Simulated state over the row store. -/
structure SimulatedStateR where
  grid : List RRef
  cleared_lines : Nat
  score_gain : Int
  piece : Piece
  gx : Int
  gy : Int
deriving DecidableEq, Repr

/-- The plain grid a list of row references denotes. -/
def obsGrid (σ : RowStore) (grid : List RRef) : Grid :=
  grid.map (readRow σ)

/-- The plain snapshot a store-level snapshot denotes. -/
def obsState (σ : RowStore) (st : GameStateR) : GameState :=
  ⟨obsGrid σ st.grid, st.hand, st.combo, st.combo_active, st.score, st.size⟩

/-- The plain simulated state a store-level one denotes. -/
def obsSim (σ : RowStore) (sim : SimulatedStateR) : SimulatedState :=
  ⟨obsGrid σ sim.grid, sim.cleared_lines, sim.score_gain, sim.piece,
   sim.gx, sim.gy⟩

/-- can_place of ai.py over the row store: pure reads. -/
def can_placeR (σ : RowStore) (grid : List RRef) (piece : Piece)
    (gx gy : Int) : Bool :=
  let size := grid.length
  piece.cells.all fun d =>
    let x := gx + d.1
    let y := gy + d.2
    decide (0 ≤ x) && decide (0 ≤ y) && decide (x < (size : Int)) &&
      decide (y < (size : Int)) &&
      ((readRow σ (grid.getD y.toNat 0)).getD x.toNat 0 != 1)

/-- The row-copying comprehension of simulate_move: one fresh row per
    grid row, appended to the store, holding a copy of the current
    value; the fresh references are returned in order. -/
def cloneGrid (σ : RowStore) (grid : List RRef) : RowStore × List RRef :=
  (σ ++ grid.map (readRow σ), (List.range grid.length).map fun k => σ.length + k)

/-- place_piece of ai.py over the row store: writes 1 into each
    translated cell of the rows the grid references. -/
def place_pieceR (σ : RowStore) (grid : List RRef) (piece : Piece)
    (gx gy : Int) : RowStore :=
  piece.cells.foldl
    (fun σ d =>
      let rr := grid.getD (gy + d.2).toNat 0
      writeRow σ rr ((readRow σ rr).set (gx + d.1).toNat 1))
    σ

/-- Full row test of clear_lines over the store. -/
def rowFullR (σ : RowStore) (grid : List RRef) (size r : Nat) : Bool :=
  (List.range size).all fun c => (readRow σ (grid.getD r 0)).getD c 0 == 1

/-- Full column test of clear_lines over the store. -/
def colFullR (σ : RowStore) (grid : List RRef) (size c : Nat) : Bool :=
  (List.range size).all fun r => (readRow σ (grid.getD r 0)).getD c 0 == 1

/-- clear_lines of ai.py over the row store: full rows and columns are
    found on the store as given, then zeroed through the references. -/
def clear_linesR (σ : RowStore) (grid : List RRef) : RowStore × Nat :=
  let size := grid.length
  let full_rows := (List.range size).filter (rowFullR σ grid size)
  let full_cols := (List.range size).filter (colFullR σ grid size)
  let σ1 := full_rows.foldl
    (fun σ r =>
      let rr := grid.getD r 0
      writeRow σ rr
        ((List.range size).foldl (fun row c => row.set c 0) (readRow σ rr)))
    σ
  let σ2 := full_cols.foldl
    (fun σ c =>
      (List.range size).foldl
        (fun σ r =>
          let rr := grid.getD r 0
          writeRow σ rr ((readRow σ rr).set c 0))
        σ)
    σ1
  (σ2, full_rows.length + full_cols.length)

/-- simulate_move of ai.py over the row store: legality on the original
    grid, then clone, place on the clone, clear on the clone. -/
def simulate_moveR (σ : RowStore) (state : GameStateR) (piece : Piece)
    (gx gy : Int) : RowStore × Option SimulatedStateR :=
  if can_placeR σ state.grid piece gx gy then
    let cl0 := cloneGrid σ state.grid
    let σ2 := place_pieceR cl0.1 cl0.2 piece gx gy
    let cl := clear_linesR σ2 cl0.2
    let base_gain : Int := piece.cells.length
    let clear_gain := calculate_score_gain cl.2 state.combo
    (cl.1, some ⟨cl0.2, cl.2, base_gain + clear_gain, piece, gx, gy⟩)
  else (σ, none)

/-- find_all_legal_moves of ai.py over the row store: pure reads. -/
def find_all_legal_movesR (σ : RowStore) (state : GameStateR) :
    List (Piece × Int × Int) :=
  state.hand.foldl
    (fun moves op =>
      match op with
      | none => moves
      | some piece =>
        (List.range state.size.toNat).foldl
          (fun (moves : List (Piece × Int × Int)) (gy : Nat) =>
            (List.range state.size.toNat).foldl
              (fun (moves : List (Piece × Int × Int)) (gx : Nat) =>
                if can_placeR σ state.grid piece (gx : Int) (gy : Int) then
                  moves ++ [(piece, (gx : Int), (gy : Int))]
                else moves)
              moves)
          moves)
    []

/-- One iteration of the search loop of choose_best_move over the row
    store: simulate on the current store, evaluate by reading the
    simulated grid through the store, keep the running maximum under the
    strict comparison of the source. -/
def chooseStep (sqrtFn : ℚ → ℚ) (state : GameStateR) (weights : Weights)
    (acc : RowStore × Option (Int × Int × Int) × ℚ)
    (m : Piece × Int × Int) : RowStore × Option (Int × Int × Int) × ℚ :=
  let sm := simulate_moveR acc.1 state m.1 m.2.1 m.2.2
  match sm.2 with
  | none => (sm.1, acc.2)
  | some sim =>
    let value :=
      evaluate_move sqrtFn (obsSim sm.1 sim) (obsState sm.1 state) weights
    if acc.2.2 < value then (sm.1, some (m.1.slot, m.2.1, m.2.2), value)
    else (sm.1, acc.2)

/-- choose_best_move of ai.py over the row store: the store is threaded
    through every simulation; the evaluator reads the simulated grid
    through the store and returns a value only. -/
def choose_best_moveR (sqrtFn : ℚ → ℚ) (σ : RowStore) (state : GameStateR)
    (weights : Weights) : RowStore × Option (Int × Int × Int) :=
  let legal_moves := find_all_legal_movesR σ state
  if legal_moves.isEmpty then (σ, none)
  else
    let r := legal_moves.foldl (chooseStep sqrtFn state weights)
      (σ, none, -(10 ^ 18 : ℚ))
    (r.1, r.2.1)

/-- Store reads below an index are unchanged between two stores. -/
def preservesBelow (n : Nat) (σ σ2 : RowStore) : Prop :=
  ∀ r, r < n → σ2.getD r [] = σ.getD r []

/-- A one-cell board held in a one-row store: the snapshot holds the
    reference to row 0. -/
def stateRW : GameStateR := ⟨[0], [some pieceOne, none, none], 0, false, 0, 1⟩

/-- Ten-member population for the C6 witness. -/
def wPop : List Member :=
  [⟨[("k", 1)], 1⟩, ⟨[("k", 2)], 2⟩, ⟨[("k", 3)], 3⟩, ⟨[("k", 4)], 4⟩,
   ⟨[("k", 5)], 5⟩, ⟨[("k", 6)], 6⟩, ⟨[("k", 7)], 7⟩, ⟨[("k", 8)], 8⟩,
   ⟨[("k", 9)], 9⟩, ⟨[("k", 10)], 10⟩]

/-- One-game statistics for the C6 witness. -/
def wStats : Stats := [("1", ⟨5, 0, 0⟩)]


end BlockBlast

namespace BlockBlast

theorem getD_set_eq_ite {α : Type _} (l : List α) (i j : Nat) (a d : α) :
    (l.set i a).getD j d = if i = j ∧ i < l.length then a else l.getD j d := by
  rw [List.getD_eq_getElem?_getD, List.getElem?_set, List.getD_eq_getElem?_getD]
  by_cases h : i = j
  · subst h
    by_cases h2 : i < l.length
    · simp [h2]
    · simp [h2, List.getElem?_eq_none (le_of_not_lt h2)]
  · simp [h]

theorem getD_of_length_le {α : Type _} (l : List α) (i : Nat) (d : α)
    (h : l.length ≤ i) : l.getD i d = d := by
  rw [List.getD_eq_getElem?_getD, List.getElem?_eq_none h]
  rfl

theorem getCell_of_length_le (g : Grid) (r c : Nat) (h : g.length ≤ r) :
    getCell g r c = 0 := by
  unfold getCell
  rw [getD_of_length_le g r [] h]
  rfl

theorem getCell_setCell_zero (g : Grid) (r c r' c' : Nat) :
    getCell (setCell g r c 0) r' c' = if r = r' ∧ c = c' then 0 else getCell g r' c' := by
  unfold getCell setCell
  rw [getD_set_eq_ite]
  by_cases h : r = r' ∧ r < g.length
  · rw [if_pos h]
    obtain ⟨h1, h2⟩ := h
    subst h1
    rw [getD_set_eq_ite]
    by_cases hc : c = c'
    · subst hc
      by_cases hcl : c < (g.getD r []).length
      · rw [if_pos ⟨rfl, hcl⟩, if_pos ⟨rfl, rfl⟩]
      · rw [if_neg (fun hh => hcl hh.2), if_pos ⟨rfl, rfl⟩]
        exact getD_of_length_le _ _ _ (le_of_not_lt hcl)
    · rw [if_neg (fun hh => hc hh.1), if_neg (fun hh => hc hh.2)]
  · rw [if_neg h]
    by_cases hrc : r = r' ∧ c = c'
    · rw [if_pos hrc]
      obtain ⟨h1, h2⟩ := hrc
      subst h1; subst h2
      have hlen : g.length ≤ r := by
        by_contra hcon
        exact h ⟨rfl, lt_of_not_le hcon⟩
      rw [getD_of_length_le g r [] hlen]
      rfl
    · rw [if_neg hrc]

theorem getCell_foldl_zero_cols (l : List Nat) (g : Grid) (r r' c' : Nat) :
    getCell (l.foldl (fun g c => setCell g r c 0) g) r' c' =
      if r = r' ∧ c' ∈ l then 0 else getCell g r' c' := by
  induction l generalizing g with
  | nil => simp
  | cons a t ih =>
    rw [List.foldl_cons, ih, getCell_setCell_zero]
    by_cases h1 : r = r'
    · subst h1
      by_cases h2 : c' ∈ t
      · rw [if_pos ⟨rfl, h2⟩, if_pos ⟨rfl, List.mem_cons_of_mem a h2⟩]
      · rw [if_neg (fun hh => h2 hh.2)]
        by_cases h3 : a = c'
        · rw [if_pos ⟨rfl, h3⟩, if_pos ⟨rfl, List.mem_cons.mpr (Or.inl h3.symm)⟩]
        · have hni : c' ∉ a :: t :=
            fun hh => (List.mem_cons.mp hh).elim (fun he => h3 he.symm) h2
          rw [if_neg (fun hh => h3 hh.2), if_neg (fun hh => hni hh.2)]
    · rw [if_neg (fun hh => h1 hh.1), if_neg (fun hh => h1 hh.1),
        if_neg (fun hh => h1 hh.1)]

theorem getCell_foldl_zero_rows (l : List Nat) (g : Grid) (c r' c' : Nat) :
    getCell (l.foldl (fun g r => setCell g r c 0) g) r' c' =
      if c = c' ∧ r' ∈ l then 0 else getCell g r' c' := by
  induction l generalizing g with
  | nil => simp
  | cons a t ih =>
    rw [List.foldl_cons, ih, getCell_setCell_zero]
    by_cases h1 : c = c'
    · subst h1
      by_cases h2 : r' ∈ t
      · rw [if_pos ⟨rfl, h2⟩, if_pos ⟨rfl, List.mem_cons_of_mem a h2⟩]
      · rw [if_neg (fun hh => h2 hh.2)]
        by_cases h3 : a = r'
        · rw [if_pos ⟨h3, rfl⟩, if_pos ⟨rfl, List.mem_cons.mpr (Or.inl h3.symm)⟩]
        · have hni : r' ∉ a :: t :=
            fun hh => (List.mem_cons.mp hh).elim (fun he => h3 he.symm) h2
          rw [if_neg (fun hh => h3 hh.1), if_neg (fun hh => hni hh.2)]
    · rw [if_neg (fun hh => h1 hh.1), if_neg (fun hh => h1 hh.2),
        if_neg (fun hh => h1 hh.1)]

theorem getCell_zeroRow (g : Grid) (size r r' c' : Nat) :
    getCell (zeroRow g size r) r' c' =
      if r = r' ∧ c' < size then 0 else getCell g r' c' := by
  unfold zeroRow
  rw [getCell_foldl_zero_cols]
  simp [List.mem_range]

theorem getCell_zeroCol (g : Grid) (size c r' c' : Nat) :
    getCell (zeroCol g size c) r' c' =
      if c = c' ∧ r' < size then 0 else getCell g r' c' := by
  unfold zeroCol
  rw [getCell_foldl_zero_rows]
  simp [List.mem_range]

theorem getCell_foldl_zeroRow_list (rows : List Nat) (g : Grid) (size r' c' : Nat) :
    getCell (rows.foldl (fun g r => zeroRow g size r) g) r' c' =
      if r' ∈ rows ∧ c' < size then 0 else getCell g r' c' := by
  induction rows generalizing g with
  | nil => simp
  | cons a t ih =>
    rw [List.foldl_cons, ih, getCell_zeroRow]
    by_cases h3 : c' < size
    · by_cases h2 : r' ∈ t
      · rw [if_pos ⟨h2, h3⟩, if_pos ⟨List.mem_cons_of_mem a h2, h3⟩]
      · rw [if_neg (fun hh => h2 hh.1)]
        by_cases h1 : a = r'
        · rw [if_pos ⟨h1, h3⟩, if_pos ⟨List.mem_cons.mpr (Or.inl h1.symm), h3⟩]
        · have hni : r' ∉ a :: t :=
            fun hh => (List.mem_cons.mp hh).elim (fun he => h1 he.symm) h2
          rw [if_neg (fun hh => h1 hh.1), if_neg (fun hh => hni hh.1)]
    · rw [if_neg (fun hh => h3 hh.2), if_neg (fun hh => h3 hh.2),
        if_neg (fun hh => h3 hh.2)]

theorem getCell_foldl_zeroCol_list (cols : List Nat) (g : Grid) (size r' c' : Nat) :
    getCell (cols.foldl (fun g c => zeroCol g size c) g) r' c' =
      if c' ∈ cols ∧ r' < size then 0 else getCell g r' c' := by
  induction cols generalizing g with
  | nil => simp
  | cons a t ih =>
    rw [List.foldl_cons, ih, getCell_zeroCol]
    by_cases h3 : r' < size
    · by_cases h2 : c' ∈ t
      · rw [if_pos ⟨h2, h3⟩, if_pos ⟨List.mem_cons_of_mem a h2, h3⟩]
      · rw [if_neg (fun hh => h2 hh.1)]
        by_cases h1 : a = c'
        · rw [if_pos ⟨h1, h3⟩, if_pos ⟨List.mem_cons.mpr (Or.inl h1.symm), h3⟩]
        · have hni : c' ∉ a :: t :=
            fun hh => (List.mem_cons.mp hh).elim (fun he => h1 he.symm) h2
          rw [if_neg (fun hh => h1 hh.1), if_neg (fun hh => hni hh.1)]
    · rw [if_neg (fun hh => h3 hh.2), if_neg (fun hh => h3 hh.2),
        if_neg (fun hh => h3 hh.2)]

theorem getCell_clearLinesOn (grid : Grid) (size r c : Nat)
    (hr : r < size) (hc : c < size) :
    getCell (clearLinesOn grid size).1 r c =
      if rowFull grid size r = true ∨ colFull grid size c = true then 0
      else getCell grid r c := by
  unfold clearLinesOn
  simp only
  rw [getCell_foldl_zeroCol_list, getCell_foldl_zeroRow_list]
  have hmc : c ∈ fullCols grid size ↔ colFull grid size c = true := by
    unfold fullCols
    rw [List.mem_filter, List.mem_range]
    exact ⟨fun h => h.2, fun h => ⟨hc, h⟩⟩
  have hmr : r ∈ fullRows grid size ↔ rowFull grid size r = true := by
    unfold fullRows
    rw [List.mem_filter, List.mem_range]
    exact ⟨fun h => h.2, fun h => ⟨hr, h⟩⟩
  by_cases h1 : colFull grid size c = true
  · simp [hmc.mpr h1, hr, h1]
  · rw [if_neg (fun hh => h1 (hmc.mp hh.1))]
    by_cases h2 : rowFull grid size r = true
    · simp [hmr.mpr h2, hc, h2]
    · rw [if_neg (fun hh => h2 (hmr.mp hh.1)), if_neg ?_]
      intro hh
      rcases hh with hh | hh
      · exact h2 hh
      · exact h1 hh

/-- C2: clear_lines zeroes exactly the cells lying in a row that is full
    in the input grid or in a column that is full in the input grid,
    leaves every other cell unchanged, and returns the number of full
    rows plus the number of full columns of the input grid. -/
theorem clear_lines_C2 (grid : Grid) (r c : Nat)
    (hr : r < grid.length) (hc : c < grid.length) :
    (clear_lines grid).2 =
      (fullRows grid grid.length).length + (fullCols grid grid.length).length ∧
    getCell (clear_lines grid).1 r c =
      (if rowFull grid grid.length r = true ∨ colFull grid grid.length c = true then 0
       else getCell grid r c) :=
  ⟨rfl, getCell_clearLinesOn grid grid.length r c hr hc⟩

/-- Witness for C2: a concrete 2 by 2 grid whose first row and first
    column are full, evaluated at cell (0, 0). -/
theorem clear_lines_C2_witness :
    (0 < ([[1, 1], [1, 0]] : Grid).length ∧ 0 < ([[1, 1], [1, 0]] : Grid).length) ∧
    ((clear_lines [[1, 1], [1, 0]]).2 =
      (fullRows [[1, 1], [1, 0]] ([[1, 1], [1, 0]] : Grid).length).length +
        (fullCols [[1, 1], [1, 0]] ([[1, 1], [1, 0]] : Grid).length).length ∧
    getCell (clear_lines [[1, 1], [1, 0]]).1 0 0 =
      (if rowFull [[1, 1], [1, 0]] ([[1, 1], [1, 0]] : Grid).length 0 = true ∨
          colFull [[1, 1], [1, 0]] ([[1, 1], [1, 0]] : Grid).length 0 = true then 0
       else getCell [[1, 1], [1, 0]] 0 0)) :=
  ⟨⟨by decide, by decide⟩, clear_lines_C2 [[1, 1], [1, 0]] 0 0 (by decide) (by decide)⟩

/-- C5: calculate_score_gain returns 0 for cleared at most 0, otherwise
    10 * cleared * (combo + 1), further multiplied by (cleared - 1) when
    cleared exceeds 2; in particular the values at (0, c), (1, 0) and
    (3, 1) are 0, 10 and 120. -/
theorem calculate_score_gain_spec :
    (∀ cleared combo : Int,
      calculate_score_gain cleared combo =
        if cleared ≤ 0 then 0
        else if 2 < cleared then 10 * cleared * (combo + 1) * (cleared - 1)
        else 10 * cleared * (combo + 1)) ∧
    (∀ c : Int, calculate_score_gain 0 c = 0) ∧
    calculate_score_gain 1 0 = 10 ∧
    calculate_score_gain 3 1 = 120 := by
  refine ⟨fun cleared combo => ?_, fun c => ?_, by decide, by decide⟩
  · unfold calculate_score_gain
    split
    · rfl
    · split <;> rfl
  · simp [calculate_score_gain]

end BlockBlast

namespace BlockBlast

theorem length_foldl_setCell (l : List (Int × Int)) (g : Grid) (gx gy : Int) :
    (l.foldl (fun g d => setCell g (gy + d.2).toNat (gx + d.1).toNat 1) g).length
      = g.length := by
  induction l generalizing g with
  | nil => rfl
  | cons a t ih =>
    rw [List.foldl_cons, ih]
    unfold setCell
    exact List.length_set ..

theorem length_place_piece (g : Grid) (p : Piece) (gx gy : Int) :
    (place_piece g p gx gy).length = g.length :=
  length_foldl_setCell p.cells g gx gy

theorem score_clears_score (g : Game) (cleared : Nat) :
    (g.score_clears cleared).score =
      g.score + calculate_score_gain (cleared : Int) g.combo +
        (if cleared ≠ 0 ∧ allClearB g.grid g.size = true then 300 else 0) := by
  by_cases h0 : cleared = 0
  · subst h0
    simp [Game.score_clears, calculate_score_gain]
  · have hle : ¬ ((cleared : Int) ≤ 0) := by
      simp only [not_le]
      exact_mod_cast Nat.pos_of_ne_zero h0
    by_cases h2 : 2 < (cleared : Int) <;>
      by_cases hac : allClearB g.grid g.size = true <;>
        simp [Game.score_clears, calculate_score_gain, h0, hle, h2, hac] <;> ring

/-- Counterexample to C1: on an empty one by one board the only
    placement clears the full row and the full column and leaves the
    board empty; the engine adds the 300 point all-clear bonus that the
    simulation lacks, so the two score deltas differ (21 against 321). -/
theorem simulate_place_gain_counterexample :
    ¬ ((simulate_move stateOne pieceOne 0 0).map SimulatedState.score_gain =
        some ((gameOne.place 0 0 0).2.score - gameOne.score)) := by decide

theorem place_score (g : Game) (slot gx gy : Int) (piece : Piece)
    (h0 : 0 ≤ slot) (h3 : slot < 3)
    (hp : g.hand.getD slot.toNat none = some piece)
    (hleg : can_place_on g.grid g.size piece gx gy = true) :
    (g.place slot gx gy).2.score =
      g.score + (piece.cells.length : Int) +
        calculate_score_gain
          ((clearLinesOn (place_piece g.grid piece gx gy) g.size).2 : Int) g.combo +
        (if (clearLinesOn (place_piece g.grid piece gx gy) g.size).2 ≠ 0 ∧
            allClearB (clearLinesOn (place_piece g.grid piece gx gy) g.size).1 g.size
              = true
         then 300 else 0) := by
  unfold Game.place
  rw [if_neg (not_not_intro ⟨h0, h3⟩), hp]
  simp only [if_neg (not_not_intro hleg)]
  simp only [apply_ite Game.score, ite_self]
  rw [score_clears_score]

/-- C1 amended: for a legal placement on matching grid and combo, the
    engine score delta equals the simulated score gain plus 300 exactly
    when the move cleared at least one line and left the board entirely
    empty (the all-clear bonus, absent from the simulation). -/
theorem simulate_place_gain_amended
    (st : GameState) (G : Game) (piece : Piece) (slot gx gy : Int)
    (hgrid : st.grid = G.grid) (hcombo : st.combo = G.combo)
    (hsize : G.grid.length = G.size)
    (hslot0 : 0 ≤ slot) (hslot3 : slot < 3)
    (hpiece : G.hand.getD slot.toNat none = some piece)
    (hleg : can_place_on G.grid G.size piece gx gy = true) :
    ∃ sim, simulate_move st piece gx gy = some sim ∧
      (G.place slot gx gy).2.score - G.score =
        sim.score_gain +
          (if (clearLinesOn (place_piece G.grid piece gx gy) G.size).2 ≠ 0 ∧
              allClearB (clearLinesOn (place_piece G.grid piece gx gy) G.size).1 G.size
                = true
           then 300 else 0) := by
  have hcp : can_place st.grid piece gx gy = true := by
    unfold can_place
    rw [hgrid, hsize]
    exact hleg
  have hlen : (place_piece st.grid piece gx gy).length = G.size := by
    rw [length_place_piece, hgrid, hsize]
  refine ⟨⟨(clearLinesOn (place_piece G.grid piece gx gy) G.size).1,
          (clearLinesOn (place_piece G.grid piece gx gy) G.size).2,
          (piece.cells.length : Int) +
            calculate_score_gain
              ((clearLinesOn (place_piece G.grid piece gx gy) G.size).2 : Int) G.combo,
          piece, gx, gy⟩, ?_, ?_⟩
  · unfold simulate_move
    rw [hcp]
    simp only [if_true, List.map_id']
    unfold clear_lines
    rw [show (place_piece st.grid piece gx gy).length = G.size from hlen, hgrid, hcombo]
  · rw [place_score G slot gx gy piece hslot0 hslot3 hpiece hleg]
    dsimp only
    ring

/-- Witness for the amended C1 theorem at a concrete two by two board. -/
theorem simulate_place_gain_amended_witness :
    (stateTwo.grid = gameTwo.grid ∧ stateTwo.combo = gameTwo.combo ∧
      gameTwo.grid.length = gameTwo.size ∧ (0 : Int) ≤ 0 ∧ (0 : Int) < 3 ∧
      gameTwo.hand.getD (0 : Int).toNat none = some pieceOne ∧
      can_place_on gameTwo.grid gameTwo.size pieceOne 0 0 = true) ∧
    (∃ sim, simulate_move stateTwo pieceOne 0 0 = some sim ∧
      (gameTwo.place 0 0 0).2.score - gameTwo.score =
        sim.score_gain +
          (if (clearLinesOn (place_piece gameTwo.grid pieceOne 0 0) gameTwo.size).2 ≠ 0 ∧
              allClearB (clearLinesOn (place_piece gameTwo.grid pieceOne 0 0) gameTwo.size).1
                gameTwo.size = true
           then 300 else 0)) :=
  ⟨⟨rfl, rfl, rfl, by decide, by decide, rfl, by decide⟩,
   simulate_place_gain_amended stateTwo gameTwo pieceOne 0 0 0 rfl rfl rfl
     (by decide) (by decide) rfl (by decide)⟩

end BlockBlast

namespace BlockBlast

theorem foldl_congr_mem {α β : Type _} {l : List α} {f g : β → α → β} (init : β)
    (h : ∀ x ∈ l, ∀ acc, f acc x = g acc x) : l.foldl f init = l.foldl g init := by
  induction l generalizing init with
  | nil => rfl
  | cons a t ih =>
    rw [List.foldl_cons, List.foldl_cons, h a (List.mem_cons_self a t)]
    exact ih _ fun x hx acc => h x (List.mem_cons_of_mem a hx) acc

theorem foldl_if_append {α β : Type _} (l : List α) (p : α → Bool) (e : α → β) :
    ∀ ms : List β,
      l.foldl (fun acc x => if p x then acc ++ [e x] else acc) ms =
        ms ++ (l.filter p).map e := by
  induction l with
  | nil => intro ms; simp
  | cons a t ih =>
    intro ms
    rw [List.foldl_cons, List.filter_cons]
    by_cases h : p a = true
    · rw [if_pos h, if_pos h, ih]
      simp
    · rw [if_neg h, if_neg h, ih]

theorem foldl_append_of {α β : Type _} (l : List α) (f : List β → α → List β)
    (g : α → List β) (h : ∀ acc a, f acc a = acc ++ g a) :
    ∀ ms : List β, l.foldl f ms = ms ++ l.flatMap g := by
  induction l with
  | nil => intro ms; simp
  | cons a t ih =>
    intro ms
    rw [List.foldl_cons, h, ih]
    simp

theorem flatMap_filterMap_id {β : Type _} (hand : List (Option Piece))
    (F : Piece → List β) :
    hand.flatMap (fun op => match op with | none => [] | some p => F p) =
      (hand.filterMap id).flatMap F := by
  induction hand with
  | nil => rfl
  | cons a t ih =>
    cases a <;> simp_all

/-- Part one of C3: the legal-move list the source builds is exactly the
    spec enumeration filtered by can_place. -/
theorem find_all_legal_moves_eq (state : GameState) :
    find_all_legal_moves state =
      (specCandidates state).filter
        (fun m => can_place state.grid m.1 m.2.1 m.2.2) := by
  unfold find_all_legal_moves specCandidates
  rw [foldl_append_of _ _
    (fun op => match op with
      | none => []
      | some piece =>
        (List.range state.size.toNat).flatMap fun (gy : Nat) =>
          ((List.range state.size.toNat).filter
            fun (gx : Nat) => can_place state.grid piece (gx : Int) (gy : Int)).map
            fun (gx : Nat) => (piece, (gx : Int), (gy : Int)))
    ?_]
  · rw [List.nil_append, flatMap_filterMap_id]
    rw [List.filter_flatMap]
    congr 1
    funext piece
    rw [List.filter_flatMap]
    congr 1
    funext gy
    rw [List.filter_map]
    rfl
  · intro acc op
    cases op with
    | none => simp
    | some piece =>
      dsimp only
      rw [foldl_append_of _ _
        (fun (gy : Nat) =>
          ((List.range state.size.toNat).filter
            fun (gx : Nat) => can_place state.grid piece (gx : Int) (gy : Int)).map
            fun (gx : Nat) => (piece, (gx : Int), (gy : Int)))
        ?_]
      intro acc2 gy
      exact foldl_if_append _ _ _ acc2

theorem simulate_move_isSome_of_can_place (state : GameState) (piece : Piece)
    (gx gy : Int) (h : can_place state.grid piece gx gy = true) :
    ∃ sim, simulate_move state piece gx gy = some sim := by
  unfold simulate_move
  rw [h]
  exact ⟨_, rfl⟩

theorem choose_best_move_eq_bestFold (sqrtFn : ℚ → ℚ) (state : GameState)
    (weights : Weights) :
    choose_best_move sqrtFn state weights =
      (bestFold (movePairs sqrtFn state weights)).1 := by
  unfold choose_best_move movePairs
  by_cases he : (find_all_legal_moves state).isEmpty
  · rw [if_pos he, List.isEmpty_iff.mp he]
    rfl
  · rw [if_neg he]
    unfold bestFold
    rw [List.foldl_map]
    congr 1
    apply foldl_congr_mem
    intro m hm acc
    have hcp : can_place state.grid m.1 m.2.1 m.2.2 = true := by
      rw [find_all_legal_moves_eq state] at hm
      exact (List.mem_filter.mp hm).2
    obtain ⟨sim, hsim⟩ := simulate_move_isSome_of_can_place state m.1 m.2.1 m.2.2 hcp
    rw [hsim]
    unfold bestStep moveValue moveOf
    rw [hsim]

theorem bestFold_cases {A : Type _} (l : List (A × ℚ)) :
    (bestFold l = (none, -(10 ^ 18 : ℚ)) ∧ ∀ p ∈ l, p.2 ≤ -(10 ^ 18 : ℚ)) ∨
    (∃ i : Fin l.length,
      bestFold l = (some (l.get i).1, (l.get i).2) ∧
      -(10 ^ 18 : ℚ) < (l.get i).2 ∧
      (∀ j : Fin l.length, (l.get j).2 ≤ (l.get i).2) ∧
      (∀ j : Fin l.length, (j : Nat) < (i : Nat) → (l.get j).2 < (l.get i).2)) := by
  induction l using List.reverseRecOn with
  | nil =>
    left
    exact ⟨rfl, by simp⟩
  | append_singleton t q ih =>
    have hfold : bestFold (t ++ [q]) = bestStep (bestFold t) q := by
      unfold bestFold
      rw [List.foldl_append]
      rfl
    have hlen : (t ++ [q]).length = t.length + 1 := by simp
    have hget : ∀ (k : Nat) (hk : k < t.length) (hk2 : k < (t ++ [q]).length),
        (t ++ [q]).get ⟨k, hk2⟩ = t.get ⟨k, hk⟩ := by
      intro k hk hk2
      simp [List.get_eq_getElem, List.getElem_append_left hk]
    have hlast : ∀ (hk : t.length < (t ++ [q]).length),
        (t ++ [q]).get ⟨t.length, hk⟩ = q := by
      intro hk
      simp [List.get_eq_getElem]
    have hltlast : t.length < (t ++ [q]).length := by
      rw [hlen]
      omega
    rcases ih with ⟨h1, h2⟩ | ⟨i, h1, hflr, h3, h4⟩
    · by_cases hq : -(10 ^ 18 : ℚ) < q.2
      · right
        refine ⟨⟨t.length, hltlast⟩, ?_, ?_, ?_, ?_⟩
        · rw [hfold, h1, hlast]
          unfold bestStep
          rw [if_pos hq]
        · rw [hlast]
          exact hq
        · rintro ⟨jv, hjv⟩
          rw [hlast]
          by_cases hj : jv < t.length
          · rw [hget jv hj hjv]
            exact le_of_lt (lt_of_le_of_lt (h2 _ (List.get_mem t jv hj)) hq)
          · have hje : jv = t.length := by
              rw [hlen] at hjv
              omega
            subst hje
            rw [hlast]
        · rintro ⟨jv, hjv⟩ hlt2
          have hj : jv < t.length := hlt2
          rw [hget jv hj hjv, hlast]
          exact lt_of_le_of_lt (h2 _ (List.get_mem t jv hj)) hq
      · left
        constructor
        · rw [hfold, h1]
          unfold bestStep
          rw [if_neg hq]
        · intro p hp
          rcases List.mem_append.mp hp with h | h
          · exact h2 p h
          · rw [List.mem_singleton.mp h]
            exact le_of_not_lt hq
    · by_cases hq : (t.get i).2 < q.2
      · right
        refine ⟨⟨t.length, hltlast⟩, ?_, ?_, ?_, ?_⟩
        · rw [hfold, h1, hlast]
          unfold bestStep
          rw [if_pos hq]
        · rw [hlast]
          exact lt_trans hflr hq
        · rintro ⟨jv, hjv⟩
          rw [hlast]
          by_cases hj : jv < t.length
          · rw [hget jv hj hjv]
            exact le_of_lt (lt_of_le_of_lt (h3 ⟨jv, hj⟩) hq)
          · have hje : jv = t.length := by
              rw [hlen] at hjv
              omega
            subst hje
            rw [hlast]
        · rintro ⟨jv, hjv⟩ hlt2
          have hj : jv < t.length := hlt2
          rw [hget jv hj hjv, hlast]
          exact lt_of_le_of_lt (h3 ⟨jv, hj⟩) hq
      · right
        have hilt : (i : Nat) < (t ++ [q]).length := by
          rw [hlen]
          omega
        refine ⟨⟨i, hilt⟩, ?_, ?_, ?_, ?_⟩
        · rw [hfold, h1]
          unfold bestStep
          rw [if_neg hq, hget i i.isLt hilt]
        · rw [hget i i.isLt hilt]
          exact hflr
        · rintro ⟨jv, hjv⟩
          rw [hget i i.isLt hilt]
          by_cases hj : jv < t.length
          · rw [hget jv hj hjv]
            exact h3 ⟨jv, hj⟩
          · have hje : jv = t.length := by
              rw [hlen] at hjv
              omega
            subst hje
            rw [hlast]
            exact le_of_not_lt hq
        · rintro ⟨jv, hjv⟩ hlt2
          have hj : jv < t.length := lt_trans hlt2 i.isLt
          rw [hget i i.isLt hilt, hget jv hj hjv]
          exact h4 ⟨jv, hj⟩ hlt2

end BlockBlast

namespace BlockBlast

attribute [local semireducible] Rat.add Rat.mul Rat.inv Rat.sub

/-- C3: the search considers exactly the can_place-filtered candidates of
    the spec enumeration order, hand slot ascending, then y ascending,
    then x ascending, and any returned move is the first-seen candidate
    attaining the maximal evaluation: every candidate value is at most
    its value and every earlier candidate value is strictly below it.
    Determinism is immediate: choose_best_move is a function. -/
theorem choose_best_move_order (sqrtFn : ℚ → ℚ) (state : GameState)
    (weights : Weights) :
    find_all_legal_moves state =
      (specCandidates state).filter
        (fun m => can_place state.grid m.1 m.2.1 m.2.2) ∧
    ∀ r, choose_best_move sqrtFn state weights = some r →
      ∃ i : Fin (find_all_legal_moves state).length,
        r = moveOf ((find_all_legal_moves state).get i) ∧
        (∀ j : Fin (find_all_legal_moves state).length,
          moveValue sqrtFn state weights ((find_all_legal_moves state).get j) ≤
            moveValue sqrtFn state weights ((find_all_legal_moves state).get i)) ∧
        ∀ j : Fin (find_all_legal_moves state).length, (j : Nat) < (i : Nat) →
          moveValue sqrtFn state weights ((find_all_legal_moves state).get j) <
            moveValue sqrtFn state weights ((find_all_legal_moves state).get i) := by
  refine ⟨find_all_legal_moves_eq state, ?_⟩
  intro r hr
  rw [choose_best_move_eq_bestFold] at hr
  have hlenL : (movePairs sqrtFn state weights).length =
      (find_all_legal_moves state).length := by
    unfold movePairs
    exact List.length_map ..
  have hkey : ∀ (k : Nat) (hk : k < (movePairs sqrtFn state weights).length)
      (hk2 : k < (find_all_legal_moves state).length),
      (movePairs sqrtFn state weights).get ⟨k, hk⟩ =
        (moveOf ((find_all_legal_moves state).get ⟨k, hk2⟩),
         moveValue sqrtFn state weights ((find_all_legal_moves state).get ⟨k, hk2⟩)) := by
    intro k hk hk2
    simp [movePairs, List.get_eq_getElem, List.getElem_map]
  rcases bestFold_cases (movePairs sqrtFn state weights) with
    ⟨h1, _⟩ | ⟨⟨iv, hiv⟩, h1, hflr, h3, h4⟩
  · rw [h1] at hr
    exact Option.noConfusion hr
  · have hi2 : iv < (find_all_legal_moves state).length := hlenL ▸ hiv
    refine ⟨⟨iv, hi2⟩, ?_, ?_, ?_⟩
    · rw [h1] at hr
      dsimp only at hr
      rw [hkey iv hiv hi2] at hr
      exact (Option.some_inj.mp hr).symm
    · rintro ⟨jv, hjv⟩
      have hjL : jv < (movePairs sqrtFn state weights).length := hlenL ▸ hjv
      have h := h3 ⟨jv, hjL⟩
      rw [hkey jv hjL hjv, hkey iv hiv hi2] at h
      exact h
    · rintro ⟨jv, hjv⟩ hlt
      have hjL : jv < (movePairs sqrtFn state weights).length := hlenL ▸ hjv
      have h := h4 ⟨jv, hjL⟩ hlt
      rw [hkey jv hjL hjv, hkey iv hiv hi2] at h
      exact h

/-- Witness for C3 on the one-cell board with the all-zero weights. -/
theorem choose_best_move_order_witness :
    choose_best_move sqrtZero stateOne weightsZero = some (0, 0, 0) ∧
    (∃ i : Fin (find_all_legal_moves stateOne).length,
      (0, 0, 0) = moveOf ((find_all_legal_moves stateOne).get i) ∧
      (∀ j : Fin (find_all_legal_moves stateOne).length,
        moveValue sqrtZero stateOne weightsZero
            ((find_all_legal_moves stateOne).get j) ≤
          moveValue sqrtZero stateOne weightsZero
            ((find_all_legal_moves stateOne).get i)) ∧
      ∀ j : Fin (find_all_legal_moves stateOne).length, (j : Nat) < (i : Nat) →
        moveValue sqrtZero stateOne weightsZero
            ((find_all_legal_moves stateOne).get j) <
          moveValue sqrtZero stateOne weightsZero
            ((find_all_legal_moves stateOne).get i)) :=
  ⟨by decide,
   (choose_best_move_order sqrtZero stateOne weightsZero).2 (0, 0, 0) (by decide)⟩

/-- Counterexample to C4: with the huge negative edge-penalty weight the
    one-cell board has a legal move yet the search returns no move, since
    the only candidate value lies below the minus 10 to the 18 sentinel
    that initializes the running maximum. -/
theorem choose_none_counterexample :
    ¬ ((choose_best_move sqrtZero stateOne weightsEdgeHuge = none) ↔
        find_all_legal_moves stateOne = []) :=
  of_decide_eq_true rfl

/-- C4 amended: the search returns no move exactly when every legal
    candidate evaluates at or below the minus 10 to the 18 sentinel; in
    particular an empty legal-move set returns no move, and any legal
    move valued above the sentinel guarantees a returned move. -/
theorem choose_best_move_none_iff (sqrtFn : ℚ → ℚ) (state : GameState)
    (weights : Weights) :
    choose_best_move sqrtFn state weights = none ↔
      ∀ m ∈ find_all_legal_moves state,
        moveValue sqrtFn state weights m ≤ -(10 ^ 18 : ℚ) := by
  rw [choose_best_move_eq_bestFold]
  constructor
  · intro h m hm
    rcases bestFold_cases (movePairs sqrtFn state weights) with
      ⟨h1, h2⟩ | ⟨i, h1, hflr, _, _⟩
    · have hmm : (moveOf m, moveValue sqrtFn state weights m) ∈
          movePairs sqrtFn state weights := by
        unfold movePairs
        exact List.mem_map_of_mem _ hm
      exact h2 _ hmm
    · rw [h1] at h
      exact Option.noConfusion h
  · intro hall
    rcases bestFold_cases (movePairs sqrtFn state weights) with
      ⟨h1, _⟩ | ⟨⟨iv, hiv⟩, h1, hflr, _, _⟩
    · rw [h1]
    · exfalso
      have hlenL : (movePairs sqrtFn state weights).length =
          (find_all_legal_moves state).length := by
        unfold movePairs
        exact List.length_map ..
      have hi2 : iv < (find_all_legal_moves state).length := hlenL ▸ hiv
      have hkey : (movePairs sqrtFn state weights).get ⟨iv, hiv⟩ =
          (moveOf ((find_all_legal_moves state).get ⟨iv, hi2⟩),
           moveValue sqrtFn state weights
             ((find_all_legal_moves state).get ⟨iv, hi2⟩)) := by
        simp [movePairs, List.get_eq_getElem, List.getElem_map]
      rw [hkey] at hflr
      exact absurd hflr
        (not_lt_of_le (hall _ (List.get_mem (find_all_legal_moves state) iv hi2)))

/-- Witness for the amended C4 at the huge-weight instance. -/
theorem choose_best_move_none_iff_witness :
    choose_best_move sqrtZero stateOne weightsEdgeHuge = none :=
  (choose_best_move_none_iff sqrtZero stateOne weightsEdgeHuge).mpr (by decide)

end BlockBlast

namespace BlockBlast

theorem any_map_general {α β : Type _} (l : List α) (f : α → β) (p : β → Bool) :
    (l.map f).any p = l.any fun a => p (f a) := by
  induction l with
  | nil => rfl
  | cons a t ih => simp [ih]

theorem all_map_general {α β : Type _} (l : List α) (f : α → β) (p : β → Bool) :
    (l.map f).all p = l.all fun a => p (f a) := by
  induction l with
  | nil => rfl
  | cons a t ih => simp [ih]

/-- C7: writing a weight mapping holding all 14 keys and loading it back
    yields the identical mapping; a missing file, an unparseable file,
    or a parsed object missing at least one of the 14 keys loads as the
    fallback vector itself, and no case raises. -/
theorem load_weights_roundtrip (w : List (String × ℚ))
    (hkeys : FALLBACK_WEIGHTS.all
      (fun kv => w.any fun kv2 => kv2.1 == kv.1) = true) :
    load_weights (save_json_weights w) FALLBACK_WEIGHTS = w ∧
    load_weights .absent FALLBACK_WEIGHTS = FALLBACK_WEIGHTS ∧
    load_weights .invalid FALLBACK_WEIGHTS = FALLBACK_WEIGHTS ∧
    ∀ data, FALLBACK_WEIGHTS.all
        (fun kv => data.any fun kv2 => kv2.1 == kv.1) = false →
      load_weights (.json data) FALLBACK_WEIGHTS = FALLBACK_WEIGHTS := by
  refine ⟨?_, rfl, rfl, ?_⟩
  · simp only [save_json_weights, load_weights]
    have h1 : FALLBACK_WEIGHTS.all
        (fun kv => (w.map fun kv => (kv.1, JVal.num kv.2)).any
          fun kv2 => kv2.1 == kv.1) = true := by
      simp only [any_map_general]
      exact hkeys
    have h2 : ((w.map fun kv => (kv.1, JVal.num kv.2)).all
        fun kv => match kv.2 with
          | JVal.num _ => true
          | JVal.other => false) = true := by
      simp only [all_map_general]
      exact List.all_eq_true.mpr fun x _ => rfl
    rw [if_pos h1, if_pos h2, List.map_map]
    have hcomp : ((fun (kv : String × JVal) =>
          (kv.1, match kv.2 with | JVal.num q => q | JVal.other => 0)) ∘
        fun (kv : String × ℚ) => (kv.1, JVal.num kv.2)) = id := by
      funext kv
      rfl
    rw [hcomp, List.map_id]
  · intro data hfalse
    unfold load_weights
    simp [hfalse]

/-- Witness for C7 at the fallback vector itself. -/
theorem load_weights_roundtrip_witness :
    (FALLBACK_WEIGHTS.all
      (fun kv => FALLBACK_WEIGHTS.any fun kv2 => kv2.1 == kv.1) = true) ∧
    (load_weights (save_json_weights FALLBACK_WEIGHTS) FALLBACK_WEIGHTS =
        FALLBACK_WEIGHTS ∧
      load_weights .absent FALLBACK_WEIGHTS = FALLBACK_WEIGHTS ∧
      load_weights .invalid FALLBACK_WEIGHTS = FALLBACK_WEIGHTS ∧
      ∀ data, FALLBACK_WEIGHTS.all
          (fun kv => data.any fun kv2 => kv2.1 == kv.1) = false →
        load_weights (.json data) FALLBACK_WEIGHTS = FALLBACK_WEIGHTS) :=
  ⟨by decide, load_weights_roundtrip FALLBACK_WEIGHTS (by decide)⟩

/-- Counterexample to C9: a payload that is parsed, not game over and
    not move-starved, whose hand entry names slot 3; python raises an
    uncaught IndexError on the hand assignment instead of returning a
    state or returning no state. -/
theorem load_state_counterexample :
    load_state (.json badSnap) = .error () := rfl

theorem pySet_ok {α : Type _} (l : List α) (i : Int) (v : α)
    (h1 : -(l.length : Int) ≤ i) (h2 : i < (l.length : Int)) :
    pySet l i v = .ok (pySetD l i v) ∧ (pySetD l i v).length = l.length := by
  unfold pySet pySetD
  by_cases h : 0 ≤ i
  · rw [if_pos h, if_pos h, if_pos (by omega)]
    exact ⟨rfl, List.length_set ..⟩
  · rw [if_neg h, if_neg h, if_pos (by omega)]
    exact ⟨rfl, List.length_set ..⟩

theorem buildHand_ok_go (entries : List HandEntry) :
    ∀ (h : List (Option Piece)), h.length = 3 →
    (∀ e ∈ entries, -3 ≤ e.slot ∧ e.slot < 3) →
    entries.foldlM
      (fun h e =>
        if e.empty.getD true then pySet h e.slot none
        else
          match e.piece with
          | none => pure h
          | some cells => pySet h e.slot (some ⟨cells, e.slot⟩)) h =
      .ok (entries.foldl
        (fun h e =>
          if e.empty.getD true then pySetD h e.slot none
          else
            match e.piece with
            | none => h
            | some cells => pySetD h e.slot (some ⟨cells, e.slot⟩)) h) := by
  induction entries with
  | nil => intro h _ _; rfl
  | cons e t ih =>
    intro h hlen hv
    have hve := hv e (List.mem_cons_self e t)
    have hb1 : -(h.length : Int) ≤ e.slot := by omega
    have hb2 : e.slot < (h.length : Int) := by omega
    rw [List.foldlM_cons, List.foldl_cons]
    by_cases hemp : e.empty.getD true = true
    · rw [if_pos hemp, if_pos hemp,
        (pySet_ok h e.slot none hb1 hb2).1]
      have hlen2 : (pySetD h e.slot none).length = 3 := by
        rw [(pySet_ok h e.slot none hb1 hb2).2, hlen]
      exact ih _ hlen2 fun x hx => hv x (List.mem_cons_of_mem e hx)
    · rw [if_neg hemp, if_neg hemp]
      cases hp : e.piece with
      | none =>
        exact ih h hlen fun x hx => hv x (List.mem_cons_of_mem e hx)
      | some cells =>
        dsimp only
        rw [(pySet_ok h e.slot (some ⟨cells, e.slot⟩) hb1 hb2).1]
        have hlen2 : (pySetD h e.slot (some ⟨cells, e.slot⟩)).length = 3 := by
          rw [(pySet_ok h e.slot (some ⟨cells, e.slot⟩) hb1 hb2).2, hlen]
        exact ih _ hlen2 fun x hx => hv x (List.mem_cons_of_mem e hx)

/-- C9 amended: the loader yields no playable state, without raising,
    for a missing file, an unparseable file, a truthy game_over flag or
    a falsy any_move_available flag; for any other payload whose hand
    entries carry slot indices that are valid python indices of the
    three-slot list it returns the GameState assembled from the grid,
    hand, combo, score and size fields. -/
theorem load_state_amended (d : SnapData)
    (hvalid : ∀ e ∈ d.hand, -3 ≤ e.slot ∧ e.slot < 3) :
    load_state .absent = .ok none ∧
    load_state .unparseable = .ok none ∧
    (d.game_over = true → load_state (.json d) = .ok none) ∧
    (d.any_move_available = some false → load_state (.json d) = .ok none) ∧
    (d.game_over = false → d.any_move_available ≠ some false →
      load_state (.json d) =
        .ok (some ⟨d.grid, buildHandD d.hand, d.combo, d.combo_active,
                   d.score, d.size⟩)) := by
  refine ⟨rfl, rfl, ?_, ?_, ?_⟩
  · intro h
    simp [load_state, h]
  · intro h
    simp [load_state, h]
  · intro h1 h2
    simp only [load_state]
    have hc : (d.game_over || !(d.any_move_available.getD true)) = false := by
      rw [h1]
      cases ha : d.any_move_available with
      | none => rfl
      | some b =>
        cases b with
        | true => rfl
        | false => exact absurd ha h2
    rw [if_neg (show ¬ ((d.game_over || !(d.any_move_available.getD true)) = true)
      from by rw [hc]; exact Bool.false_ne_true)]
    have hb : buildHand d.hand = .ok (buildHandD d.hand) :=
      buildHand_ok_go d.hand [none, none, none] rfl hvalid
    rw [hb]

/-- Witness for the amended C9 at a concrete well-formed payload. -/
theorem load_state_amended_witness :
    (∀ e ∈ goodSnap.hand, -3 ≤ e.slot ∧ e.slot < 3) ∧
    (load_state .absent = .ok none ∧
    load_state .unparseable = .ok none ∧
    (goodSnap.game_over = true → load_state (.json goodSnap) = .ok none) ∧
    (goodSnap.any_move_available = some false →
      load_state (.json goodSnap) = .ok none) ∧
    (goodSnap.game_over = false → goodSnap.any_move_available ≠ some false →
      load_state (.json goodSnap) =
        .ok (some ⟨goodSnap.grid, buildHandD goodSnap.hand, goodSnap.combo,
                   goodSnap.combo_active, goodSnap.score, goodSnap.size⟩))) :=
  ⟨by decide, load_state_amended goodSnap (by decide)⟩

end BlockBlast

namespace BlockBlast

theorem apply_ai_action_spec (B : Nat) (s : ConsState) (f : ActFile) :
    s.last_move_id ≤ (apply_ai_action B s f).state.last_move_id ∧
    ∀ i, (apply_ai_action B s f).applied = some i →
      s.last_move_id < i ∧ (apply_ai_action B s f).state.last_move_id = i := by
  unfold apply_ai_action
  repeat' split
  all_goals try simp_all
  all_goals try omega
  all_goals repeat' split
  all_goals try simp_all
  all_goals omega

theorem runConsumer_go (B : Nat) (files : List ActFile) :
    ∀ (s : ConsState) (acc : List Int),
      List.Chain' (· < ·) acc →
      (∀ i ∈ acc, i ≤ s.last_move_id) →
      List.Chain' (· < ·) ((files.foldl
        (fun acc f =>
          let out := apply_ai_action B acc.1 f
          (out.state, acc.2 ++ out.applied.toList)) (s, acc)).2) ∧
      (∀ i ∈ (files.foldl
        (fun acc f =>
          let out := apply_ai_action B acc.1 f
          (out.state, acc.2 ++ out.applied.toList)) (s, acc)).2,
        i ∈ acc ∨ s.last_move_id < i) ∧
      (∀ i ∈ (files.foldl
        (fun acc f =>
          let out := apply_ai_action B acc.1 f
          (out.state, acc.2 ++ out.applied.toList)) (s, acc)).2,
        i ≤ (files.foldl
          (fun acc f =>
            let out := apply_ai_action B acc.1 f
            (out.state, acc.2 ++ out.applied.toList)) (s, acc)).1.last_move_id) := by
  induction files with
  | nil =>
    intro s acc h1 h2
    exact ⟨h1, fun i hi => Or.inl hi, h2⟩
  | cons f fs ih =>
    intro s acc h1 h2
    rw [List.foldl_cons]
    obtain ⟨hmono, happ⟩ := apply_ai_action_spec B s f
    cases hap : (apply_ai_action B s f).applied with
    | none =>
      simp only [hap, Option.toList, List.append_nil]
      have hstep := ih (apply_ai_action B s f).state acc h1
        (fun i hi => le_trans (h2 i hi) hmono)
      refine ⟨hstep.1, ?_, hstep.2.2⟩
      intro i hi
      rcases hstep.2.1 i hi with h | h
      · exact Or.inl h
      · exact Or.inr (lt_of_le_of_lt hmono h)
    | some j =>
      obtain ⟨hjgt, hjeq⟩ := happ j hap
      simp only [hap, Option.toList]
      have hch : List.Chain' (· < ·) (acc ++ [j]) := by
        rw [List.chain'_append]
        refine ⟨h1, List.chain'_singleton j, ?_⟩
        intro x hx y hy
        rw [List.head?_cons, Option.mem_some_iff] at hy
        subst hy
        exact lt_of_le_of_lt (h2 x (List.mem_of_mem_getLast? hx)) hjgt
      have hbd : ∀ i ∈ acc ++ [j], i ≤ (apply_ai_action B s f).state.last_move_id := by
        intro i hi
        rcases List.mem_append.mp hi with h | h
        · rw [hjeq]
          exact le_of_lt (lt_of_le_of_lt (h2 i h) hjgt)
        · rw [List.mem_singleton.mp h, hjeq]
      have hstep := ih (apply_ai_action B s f).state (acc ++ [j]) hch hbd
      refine ⟨hstep.1, ?_, hstep.2.2⟩
      intro i hi
      rcases hstep.2.1 i hi with h | h
      · rcases List.mem_append.mp h with h | h
        · exact Or.inl h
        · rw [List.mem_singleton.mp h]
          exact Or.inr hjgt
      · refine Or.inr (lt_of_le_of_lt ?_ h)
        rw [hjeq]
        exact le_of_lt hjgt

/-- Counterexample to C8: an action file whose content parses to a falsy
    value, such as the empty object, is read by the consumer and left in
    place, not deleted. -/
theorem consumer_delete_counterexample :
    (apply_ai_action 8 consStart ActFile.falsy).deleted = false := rfl

/-- C8 amended: over any sequence of reads the applied move identifiers
    are strictly increasing and all exceed the starting last identifier,
    so an action whose identifier is at most the last applied one is
    never applied; and whenever the consumer is not mid-drag and the file
    parses to an object, the file is deleted whether the action is
    applied or rejected.  A file parsing falsy is read but left in
    place. -/
theorem consumer_protocol (B : Nat) (s : ConsState) (files : List ActFile) :
    List.Chain' (· < ·) (runConsumer B s files).2 ∧
    (∀ i ∈ (runConsumer B s files).2, s.last_move_id < i) ∧
    ∀ (s2 : ConsState) (a : ActData), s2.dragging = false →
      (apply_ai_action B s2 (.json a)).deleted = true := by
  refine ⟨?_, ?_, ?_⟩
  · exact (runConsumer_go B files s [] List.chain'_nil (by simp)).1
  · intro i hi
    rcases (runConsumer_go B files s [] List.chain'_nil (by simp)).2.1 i hi with
      h | h
    · simp at h
    · exact h
  · intro s2 a hd
    unfold apply_ai_action
    rw [if_neg (by rw [hd]; exact Bool.false_ne_true)]
    repeat' split
    all_goals try simp_all
    all_goals repeat' split
    all_goals simp_all

/-- Witness for the amended C8: the same identifier published twice is
    applied once, and a parsed object is always deleted. -/
theorem consumer_protocol_witness :
    (List.Chain' (· < ·) (runConsumer 8 consStart demoFiles).2 ∧
      (∀ i ∈ (runConsumer 8 consStart demoFiles).2,
        consStart.last_move_id < i) ∧
      ∀ (s2 : ConsState) (a : ActData), s2.dragging = false →
        (apply_ai_action 8 s2 (.json a)).deleted = true) ∧
    (apply_ai_action 8 consStart (.json demoAct)).deleted = true :=
  ⟨consumer_protocol 8 consStart demoFiles,
   (consumer_protocol 8 consStart demoFiles).2.2 consStart demoAct rfl⟩

end BlockBlast

namespace BlockBlast

attribute [local semireducible] Rat.add Rat.mul Rat.inv Rat.sub

theorem refill_child_form (sorted np : List Member) (rng : RngS)
    (h : ¬ POPULATION_SIZE ≤ np.length) :
    ∃ (m : Member) (r : RngS), m.f = 0 ∧
      refill sorted np rng = refill sorted (np ++ [m]) r := by
  rw [refill, dif_neg h]
  exact ⟨_, _, rfl, rfl⟩

theorem refill_spec (sorted : List Member) :
    ∀ (n : Nat) (np : List Member) (rng : RngS),
      POPULATION_SIZE - np.length ≤ n → np.length ≤ POPULATION_SIZE →
      ∃ cs rng2, refill sorted np rng = (np ++ cs, rng2) ∧
        (∀ c ∈ cs, c.f = 0) ∧ (np ++ cs).length = POPULATION_SIZE := by
  intro n
  induction n with
  | zero =>
    intro np rng hsub hle
    have hlen : np.length = POPULATION_SIZE := by omega
    refine ⟨[], rng, ?_, by simp, by simp [hlen]⟩
    rw [refill, dif_pos (le_of_eq hlen.symm)]
    simp
  | succ k ih =>
    intro np rng hsub hle
    by_cases h : POPULATION_SIZE ≤ np.length
    · have hlen : np.length = POPULATION_SIZE := le_antisymm hle h
      refine ⟨[], rng, ?_, by simp, by simp [hlen]⟩
      rw [refill, dif_pos h]
      simp
    · obtain ⟨m, r, hm0, heq⟩ := refill_child_form sorted np rng h
      obtain ⟨cs, rng2, heq2, hcs, hlenf⟩ := ih (np ++ [m]) r
        (by simp only [List.length_append, List.length_singleton]; omega)
        (by simp only [List.length_append, List.length_singleton]; omega)
      refine ⟨m :: cs, rng2, ?_, ?_, ?_⟩
      · rw [heq, heq2, List.append_assoc]
        rfl
      · intro c hc
        rcases List.mem_cons.mp hc with h | h
        · rw [h]
          exact hm0
        · exact hcs c h
      · simp at hlenf ⊢
        omega

theorem sortDesc_perm (pop : List Member) : List.Perm (sortDesc pop) pop :=
  List.mergeSort_perm pop _

theorem sortDesc_sorted (pop : List Member) :
    (sortDesc pop).Pairwise fun a b => b.f ≤ a.f := by
  have h := @List.sorted_mergeSort Member
    (fun a b : Member => decide (b.f ≤ a.f))
    (fun a b c hab hbc =>
      decide_eq_true (le_trans (of_decide_eq_true hbc) (of_decide_eq_true hab)))
    (fun a b => by rcases le_total b.f a.f with h | h <;> simp [h]) pop
  exact h.imp fun {a b} hab => of_decide_eq_true hab

/-- C6: with a full ten-member population whose members all hold
    positive fitness after the cursor assignment, and a top fitness not
    exceeding the persisted best, train writes no best record, resets
    the cursor to zero, carries the two top members of the stable
    descending order verbatim as the first two members of the new
    population, and fills the rest with fitness-zero children; the
    sorted list is a permutation of the evaluated population, descending
    in fitness, so its first two members are two highest-fitness
    members. -/
theorem train_generation (stats : Stats) (pop : List Member) (idx : Int)
    (weightsFile : Option WeightV) (bestFile : BestFile) (rng : RngS)
    (hstats : stats.isEmpty = false)
    (hlen : pop.length = 10) (hidx0 : 0 ≤ idx) (hidxlt : idx.toNat < 10)
    (hall : ∀ m ∈ assignFitness pop idx.toNat (calc_fitness stats), 0 < m.f)
    (hbest : ((sortDesc (assignFitness pop idx.toNat (calc_fitness stats))).getD 0
        defaultMember).f ≤ bestFitness bestFile) :
    ∃ res, train stats (some pop) (some idx) weightsFile bestFile rng
        = some res ∧
      res.best_write = none ∧
      res.cursor = 0 ∧
      res.population.length = 10 ∧
      res.population.take 2 =
        (sortDesc (assignFitness pop idx.toNat (calc_fitness stats))).take 2 ∧
      (∀ m ∈ res.population.drop 2, m.f = 0) ∧
      List.Perm (sortDesc (assignFitness pop idx.toNat (calc_fitness stats)))
        (assignFitness pop idx.toNat (calc_fitness stats)) ∧
      (sortDesc (assignFitness pop idx.toNat (calc_fitness stats))).Pairwise
        fun a b => b.f ≤ a.f := by
  have hne : ¬ (pop.isEmpty = true) := by
    intro hh
    rw [List.isEmpty_iff.mp hh] at hlen
    exact absurd hlen (by decide)
  have hsortlen : (sortDesc (assignFitness pop idx.toNat (calc_fitness stats))).length = 10 := by
    unfold sortDesc assignFitness
    rw [List.length_mergeSort, List.length_set, hlen]
  have htake2 : ((sortDesc (assignFitness pop idx.toNat (calc_fitness stats))).take
      TOP_KEEP).length = 2 := by
    rw [List.length_take, hsortlen]
    rfl
  obtain ⟨cs, rng2, heq, hcs, hlenf⟩ :=
    refill_spec (sortDesc (assignFitness pop idx.toNat (calc_fitness stats)))
      POPULATION_SIZE
      ((sortDesc (assignFitness pop idx.toNat (calc_fitness stats))).take TOP_KEEP)
      rng (by omega) (by rw [htake2]; decide)
  have htrain : train stats (some pop) (some idx) weightsFile bestFile rng =
      some ⟨none,
        (sortDesc (assignFitness pop idx.toNat (calc_fitness stats))).take TOP_KEEP
          ++ cs, 0,
        (((sortDesc (assignFitness pop idx.toNat (calc_fitness stats))).take TOP_KEEP
          ++ cs).getD 0 defaultMember).w⟩ := by
    unfold train
    rw [if_neg (by rw [hstats]; exact Bool.false_ne_true)]
    dsimp only
    rw [if_neg hne]
    dsimp only
    simp only [Option.getD_some]
    rw [if_pos (List.all_eq_true.mpr fun m hm => decide_eq_true (hall m hm))]
    rw [if_neg (not_lt_of_le hbest)]
    rw [List.map_id']
    rw [heq]
  refine ⟨_, htrain, rfl, rfl, ?_, ?_, ?_, sortDesc_perm _, sortDesc_sorted _⟩
  · dsimp only
    simp only [List.length_append] at hlenf ⊢
    simpa [POPULATION_SIZE] using hlenf
  · dsimp only
    conv_lhs => rw [← htake2]
    rw [List.take_left]
    rfl
  · dsimp only
    rw [← htake2, List.drop_left]
    exact hcs

theorem sortDesc_head_le (bound : ℚ) (pop : List Member)
    (hne : 0 < (sortDesc pop).length)
    (hb : ∀ m ∈ pop, m.f ≤ bound) :
    ((sortDesc pop).getD 0 defaultMember).f ≤ bound := by
  have hmem : (sortDesc pop).getD 0 defaultMember ∈ sortDesc pop := by
    rw [List.getD_eq_getElem?_getD, List.getElem?_eq_getElem hne]
    exact List.getElem_mem hne
  exact hb _ ((sortDesc_perm pop).mem_iff.mp hmem)

theorem train_generation_witness :
    (wStats.isEmpty = false ∧ wPop.length = 10 ∧ (0 : Int) ≤ 0 ∧
      (0 : Int).toNat < 10 ∧
      (∀ m ∈ assignFitness wPop (0 : Int).toNat (calc_fitness wStats), 0 < m.f) ∧
      ((sortDesc (assignFitness wPop (0 : Int).toNat (calc_fitness wStats))).getD 0
          defaultMember).f ≤ bestFitness (.withF 100 [])) ∧
    (∃ res, train wStats (some wPop) (some 0) none (.withF 100 []) [] = some res ∧
      res.best_write = none ∧
      res.cursor = 0 ∧
      res.population.length = 10 ∧
      res.population.take 2 =
        (sortDesc (assignFitness wPop (0 : Int).toNat (calc_fitness wStats))).take 2 ∧
      (∀ m ∈ res.population.drop 2, m.f = 0) ∧
      List.Perm (sortDesc (assignFitness wPop (0 : Int).toNat (calc_fitness wStats)))
        (assignFitness wPop (0 : Int).toNat (calc_fitness wStats)) ∧
      (sortDesc (assignFitness wPop (0 : Int).toNat (calc_fitness wStats))).Pairwise
        fun a b => b.f ≤ a.f) := by
  have hbestw : ((sortDesc (assignFitness wPop (0 : Int).toNat
      (calc_fitness wStats))).getD 0 defaultMember).f ≤
        bestFitness (.withF 100 []) := by
    apply sortDesc_head_le
    · unfold sortDesc
      rw [List.length_mergeSort]
      decide
    · decide
  exact ⟨⟨rfl, rfl, by decide, by decide, by decide, hbestw⟩,
    train_generation wStats wPop 0 none (.withF 100 []) [] rfl rfl (by decide)
      (by decide) (by decide) hbestw⟩

end BlockBlast

namespace BlockBlast

theorem preservesBelow_refl (n : Nat) (σ : RowStore) : preservesBelow n σ σ :=
  fun _ _ => rfl

theorem preservesBelow_trans {n : Nat} {σ1 σ2 σ3 : RowStore}
    (h1 : preservesBelow n σ1 σ2) (h2 : preservesBelow n σ2 σ3) :
    preservesBelow n σ1 σ3 :=
  fun r hr => (h2 r hr).trans (h1 r hr)

theorem writeRow_preserves {n : Nat} {r0 : RRef} (hn : n ≤ r0)
    (σ : RowStore) (row : List Nat) :
    preservesBelow n σ (writeRow σ r0 row) := by
  intro r hr
  unfold writeRow
  rw [getD_set_eq_ite]
  have hne : ¬(r0 = r ∧ r0 < σ.length) := by
    rintro ⟨rfl, -⟩
    omega
  rw [if_neg hne]

theorem foldl_preservesBelow {β : Type _} (n : Nat) (l : List β)
    (f : RowStore → β → RowStore)
    (h : ∀ σ b, b ∈ l → preservesBelow n σ (f σ b) ∧ (f σ b).length = σ.length) :
    ∀ σ : RowStore, preservesBelow n σ (l.foldl f σ) ∧
      (l.foldl f σ).length = σ.length := by
  induction l with
  | nil => intro σ; exact ⟨preservesBelow_refl n σ, rfl⟩
  | cons b t ih =>
    intro σ
    have hb := h σ b (List.mem_cons_self b t)
    have ht := ih (fun σ2 x hx => h σ2 x (List.mem_cons_of_mem b hx)) (f σ b)
    exact ⟨preservesBelow_trans hb.1 ht.1, ht.2.trans hb.2⟩

theorem getD_mem_of_lt {α : Type _} (l : List α) (i : Nat) (d : α)
    (h : i < l.length) : l.getD i d ∈ l := by
  rw [List.getD_eq_getElem?_getD, List.getElem?_eq_getElem h]
  simp only [Option.getD_some]
  exact List.getElem_mem h

theorem place_pieceR_frame (n : Nat) (grid : List RRef) (piece : Piece)
    (gx gy : Int) (hrefs : ∀ x ∈ grid, n ≤ x)
    (hidx : ∀ d ∈ piece.cells, (gy + d.2).toNat < grid.length) (σ : RowStore) :
    preservesBelow n σ (place_pieceR σ grid piece gx gy) ∧
      (place_pieceR σ grid piece gx gy).length = σ.length := by
  unfold place_pieceR
  exact foldl_preservesBelow n piece.cells _
    (fun σ2 d hd =>
      ⟨writeRow_preserves (hrefs _ (getD_mem_of_lt grid _ 0 (hidx d hd))) σ2 _,
        List.length_set _ _ _⟩) σ

theorem rowsWrite_frame (n : Nat) (grid : List RRef)
    (hrefs : ∀ x ∈ grid, n ≤ x) (l : List Nat)
    (hl : ∀ r ∈ l, r < grid.length)
    (g : RowStore → Nat → List Nat) (σ : RowStore) :
    preservesBelow n σ
      (l.foldl (fun σ2 r => writeRow σ2 (grid.getD r 0) (g σ2 r)) σ) ∧
      (l.foldl (fun σ2 r => writeRow σ2 (grid.getD r 0) (g σ2 r)) σ).length =
        σ.length :=
  foldl_preservesBelow n l _
    (fun σ2 r hr =>
      ⟨writeRow_preserves (hrefs _ (getD_mem_of_lt grid _ 0 (hl r hr))) σ2 _,
        List.length_set _ _ _⟩) σ

theorem clear_linesR_frame (n : Nat) (grid : List RRef) (σ : RowStore)
    (hrefs : ∀ x ∈ grid, n ≤ x) :
    preservesBelow n σ (clear_linesR σ grid).1 ∧
      (clear_linesR σ grid).1.length = σ.length := by
  have h1 := rowsWrite_frame n grid hrefs
    ((List.range grid.length).filter (rowFullR σ grid grid.length))
    (fun r hr => List.mem_range.mp (List.mem_filter.mp hr).1)
    (fun σ2 r => (List.range grid.length).foldl (fun row c => row.set c 0)
      (readRow σ2 (grid.getD r 0))) σ
  have h2 := foldl_preservesBelow n
    ((List.range grid.length).filter (colFullR σ grid grid.length))
    (fun σ2 c => (List.range grid.length).foldl
      (fun σ3 r => writeRow σ3 (grid.getD r 0)
        ((readRow σ3 (grid.getD r 0)).set c 0)) σ2)
    (fun σ2 c _ => rowsWrite_frame n grid hrefs (List.range grid.length)
      (fun r hr => List.mem_range.mp hr)
      (fun σ3 r => (readRow σ3 (grid.getD r 0)).set c 0) σ2)
    (((List.range grid.length).filter (rowFullR σ grid grid.length)).foldl
      (fun σ2 r => writeRow σ2 (grid.getD r 0)
        ((List.range grid.length).foldl (fun row c => row.set c 0)
          (readRow σ2 (grid.getD r 0)))) σ)
  exact ⟨preservesBelow_trans h1.1 h2.1, h2.2.trans h1.2⟩

theorem can_placeR_bounds {σ : RowStore} {grid : List RRef} {piece : Piece}
    {gx gy : Int} (h : can_placeR σ grid piece gx gy = true) :
    ∀ d ∈ piece.cells, (gy + d.2).toNat < grid.length := by
  intro d hd
  unfold can_placeR at h
  rw [List.all_eq_true] at h
  have hc := h d hd
  simp only [Bool.and_eq_true, decide_eq_true_eq] at hc
  omega

theorem cloneGrid_fst_preserves (n : Nat) (σ : RowStore) (grid : List RRef)
    (hn : n ≤ σ.length) :
    preservesBelow n σ (cloneGrid σ grid).1 := by
  intro r hr
  unfold cloneGrid
  exact List.getD_append σ _ [] r (lt_of_lt_of_le hr hn)

theorem cloneGrid_fst_length (σ : RowStore) (grid : List RRef) :
    (cloneGrid σ grid).1.length = σ.length + grid.length := by
  simp [cloneGrid]

theorem cloneGrid_refs_ge (σ : RowStore) (grid : List RRef) :
    ∀ x ∈ (cloneGrid σ grid).2, σ.length ≤ x := by
  intro x hx
  unfold cloneGrid at hx
  simp only [List.mem_map, List.mem_range] at hx
  obtain ⟨k, _, rfl⟩ := hx
  omega

theorem cloneGrid_refs_length (σ : RowStore) (grid : List RRef) :
    (cloneGrid σ grid).2.length = grid.length := by
  simp [cloneGrid]

theorem simulate_moveR_frame (σ : RowStore) (state : GameStateR)
    (piece : Piece) (gx gy : Int) :
    preservesBelow σ.length σ (simulate_moveR σ state piece gx gy).1 ∧
      σ.length ≤ (simulate_moveR σ state piece gx gy).1.length := by
  unfold simulate_moveR
  by_cases h : can_placeR σ state.grid piece gx gy = true
  · rw [if_pos h]
    dsimp only
    have hrefs := cloneGrid_refs_ge σ state.grid
    have hidx : ∀ d ∈ piece.cells,
        (gy + d.2).toNat < (cloneGrid σ state.grid).2.length := by
      intro d hd
      rw [cloneGrid_refs_length]
      exact can_placeR_bounds h d hd
    have h1 : preservesBelow σ.length σ (cloneGrid σ state.grid).1 :=
      cloneGrid_fst_preserves σ.length σ state.grid le_rfl
    have h1len := cloneGrid_fst_length σ state.grid
    have h2 := place_pieceR_frame σ.length (cloneGrid σ state.grid).2 piece
      gx gy hrefs hidx (cloneGrid σ state.grid).1
    have h3 := clear_linesR_frame σ.length (cloneGrid σ state.grid).2
      (place_pieceR (cloneGrid σ state.grid).1 (cloneGrid σ state.grid).2
        piece gx gy) hrefs
    refine ⟨preservesBelow_trans h1 (preservesBelow_trans h2.1 h3.1), ?_⟩
    rw [h3.2, h2.2, h1len]
    omega
  · rw [if_neg h]
    exact ⟨preservesBelow_refl _ _, le_refl _⟩

theorem chooseStep_frame (sqrtFn : ℚ → ℚ) (state : GameStateR)
    (weights : Weights) (acc : RowStore × Option (Int × Int × Int) × ℚ)
    (m : Piece × Int × Int) (n : Nat) (hn : n ≤ acc.1.length) :
    n ≤ (chooseStep sqrtFn state weights acc m).1.length ∧
      preservesBelow n acc.1 (chooseStep sqrtFn state weights acc m).1 := by
  have hs := simulate_moveR_frame acc.1 state m.1 m.2.1 m.2.2
  have hpb : preservesBelow n acc.1
      (simulate_moveR acc.1 state m.1 m.2.1 m.2.2).1 :=
    fun r hr => hs.1 r (lt_of_lt_of_le hr hn)
  have hlen : n ≤ (simulate_moveR acc.1 state m.1 m.2.1 m.2.2).1.length :=
    le_trans hn hs.2
  unfold chooseStep
  dsimp only
  split
  · exact ⟨hlen, hpb⟩
  · split
    · exact ⟨hlen, hpb⟩
    · exact ⟨hlen, hpb⟩

theorem chooseR_fold_frame (sqrtFn : ℚ → ℚ) (state : GameStateR)
    (weights : Weights) (n : Nat) (legal : List (Piece × Int × Int)) :
    ∀ acc : RowStore × Option (Int × Int × Int) × ℚ, n ≤ acc.1.length →
      n ≤ (legal.foldl (chooseStep sqrtFn state weights) acc).1.length ∧
        preservesBelow n acc.1
          (legal.foldl (chooseStep sqrtFn state weights) acc).1 := by
  induction legal with
  | nil => intro acc h; exact ⟨h, preservesBelow_refl n acc.1⟩
  | cons m t ih =>
    intro acc h
    have h1 := chooseStep_frame sqrtFn state weights acc m n h
    have h2 := ih (chooseStep sqrtFn state weights acc m) h1.1
    exact ⟨h2.1, preservesBelow_trans h1.2 h2.2⟩

/-- C10: for every snapshot and weight mapping, running choose_best_move
    over the row store, including every simulate_move and can_place call
    it performs, leaves the caller's state completely unchanged: under
    the well-formedness proviso that the snapshot's row references point
    into the store, the observable GameState read back through the store
    after the search, grid cells, hand, combo, combo_active, score and
    size, equals the one read before it, because each candidate is
    simulated on freshly appended cloned rows and every write lands on
    those clones. -/
theorem choose_best_moveR_frame (sqrtFn : ℚ → ℚ) (σ : RowStore)
    (state : GameStateR) (weights : Weights)
    (hrefs : ∀ r ∈ state.grid, r < σ.length) :
    obsState (choose_best_moveR sqrtFn σ state weights).1 state =
      obsState σ state := by
  unfold choose_best_moveR
  dsimp only
  split
  · rfl
  · have h := chooseR_fold_frame sqrtFn state weights σ.length
      (find_all_legal_movesR σ state) (σ, none, -(10 ^ 18 : ℚ)) le_rfl
    unfold obsState obsGrid
    simp only [GameState.mk.injEq, and_true]
    apply List.map_congr_left
    intro r hr
    unfold readRow
    exact h.2 r (hrefs r hr)

/-- Witness for C10 at a one-cell board whose single row reference points
    into a one-row store. -/
theorem choose_best_moveR_frame_witness :
    (∀ r ∈ stateRW.grid, r < ([[0]] : RowStore).length) ∧
      obsState (choose_best_moveR sqrtZero [[0]] stateRW weightsZero).1 stateRW =
        obsState [[0]] stateRW :=
  ⟨by decide,
    choose_best_moveR_frame sqrtZero [[0]] stateRW weightsZero (by decide)⟩

end BlockBlast
